import Mathlib

/-!
Shallow embedding of the CPU-side LOD / planetary-math core of the
`unventured-online` terrain engine, together with proofs checking the
natural-language specification against the code.

Numbers: the source is JavaScript double arithmetic; it is embedded over
the reals (the spec describes the intended real-valued behaviour, and the
properties under scrutiny are about the algebra and control flow of the
code, not about rounding).  Integer-valued quantities (tile coordinates,
LOD levels) are embedded as naturals / integers.

Sources embedded here:
  - src/src/engine/PlanetMath.ts      (WGS84 constants, geodetic/ECEF/ENU)
  - src/src/engine/TileKey.ts         (tile identity, keys, hierarchy)
  - src/src/engine/TileBounds.ts      (bounding spheres, SSE, horizon test)
  - src/src/engine/FrustumPlanes.ts   (sphere-vs-frustum predicate)
  - src/src/engine/QuadtreeManager.ts (refinement traversal and update)
-/

open Real

/-- `Vec3` from PlanetMath.ts: `{x, y, z}`, used for both ECEF and ENU. -/
structure Vec3 where
  x : ℝ
  y : ℝ
  z : ℝ

/-- `Geodetic` from PlanetMath.ts: latitude/longitude in radians, height in
meters. -/
structure Geodetic where
  lat : ℝ
  lon : ℝ
  height : ℝ

/-- WGS84 semi-major axis `WGS84.a = 6378137.0` (PlanetMath.ts). -/
noncomputable def wgs84a : ℝ := 6378137.0

/-- WGS84 flattening `WGS84.f = 1.0 / 298.257223563` (PlanetMath.ts). -/
noncomputable def wgs84f : ℝ := 1.0 / 298.257223563

/-- WGS84 eccentricity squared `WGS84.e2 = 2*f - f*f` (PlanetMath.ts). -/
noncomputable def wgs84e2 : ℝ := 2 * wgs84f - wgs84f * wgs84f

/-- `geodeticToECEF` from PlanetMath.ts: closed-form conversion using the
prime-vertical radius of curvature `N`. -/
noncomputable def geodeticToECEF (g : Geodetic) : Vec3 :=
  let sinLat := Real.sin g.lat
  let cosLat := Real.cos g.lat
  let sinLon := Real.sin g.lon
  let cosLon := Real.cos g.lon
  let N := wgs84a / Real.sqrt (1 - wgs84e2 * sinLat * sinLat)
  { x := (N + g.height) * cosLat * cosLon
    y := (N + g.height) * cosLat * sinLon
    z := (N * (1 - wgs84e2) + g.height) * sinLat }

/-- `ecefToENU` from PlanetMath.ts: rotate the ECEF delta from the anchor
through the local-tangent-plane rotation. -/
noncomputable def ecefToENU (point : Vec3) (anchorGeodetic : Geodetic) : Vec3 :=
  let anchorECEF := geodeticToECEF anchorGeodetic
  let dx := point.x - anchorECEF.x
  let dy := point.y - anchorECEF.y
  let dz := point.z - anchorECEF.z
  let sinLat := Real.sin anchorGeodetic.lat
  let cosLat := Real.cos anchorGeodetic.lat
  let sinLon := Real.sin anchorGeodetic.lon
  let cosLon := Real.cos anchorGeodetic.lon
  { x := -sinLon * dx + cosLon * dy
    y := -sinLat * cosLon * dx - sinLat * sinLon * dy + cosLat * dz
    z := cosLat * cosLon * dx + cosLat * sinLon * dy + sinLat * dz }

/-- `enuToECEF` from PlanetMath.ts: inverse rotation plus the anchor's ECEF
position. -/
noncomputable def enuToECEF (enu : Vec3) (anchorGeodetic : Geodetic) : Vec3 :=
  let anchorECEF := geodeticToECEF anchorGeodetic
  let sinLat := Real.sin anchorGeodetic.lat
  let cosLat := Real.cos anchorGeodetic.lat
  let sinLon := Real.sin anchorGeodetic.lon
  let cosLon := Real.cos anchorGeodetic.lon
  let dx := -sinLon * enu.x - sinLat * cosLon * enu.y + cosLat * cosLon * enu.z
  let dy := cosLon * enu.x - sinLat * sinLon * enu.y + cosLat * sinLon * enu.z
  let dz := cosLat * enu.y + sinLat * enu.z
  { x := anchorECEF.x + dx
    y := anchorECEF.y + dy
    z := anchorECEF.z + dz }

/-- `TileKey` from TileKey.ts: immutable quadtree address `(face, level, x, y)`
on the 6-faced cube-sphere.  The readonly fields are naturals; validation of
the raw constructor arguments is modelled by `mkTileKey` below. -/
structure TileKey where
  face : ℕ
  level : ℕ
  x : ℕ
  y : ℕ
deriving DecidableEq

/-- The `TileKey` constructor from TileKey.ts, arguments as integers.  The
source throws `Invalid face` / `Invalid LOD level` / `Invalid tile
coordinates` errors, modelled as `none`:

    if (face < 0 || face > 5) throw new Error("Invalid face");
    if (level < 0) throw new Error("Invalid LOD level");
    if (x < 0 || y < 0) throw new Error("Invalid tile coordinates");

On success the arguments are stored unchanged. -/
def mkTileKey (face level x y : ℤ) : Option TileKey :=
  if face < 0 ∨ 5 < face then none
  else if level < 0 then none
  else if x < 0 ∨ y < 0 then none
  else some ⟨face.toNat, level.toNat, x.toNat, y.toNat⟩

/-- `TileKey.getChildren` from TileKey.ts: quadrant split at `level + 1` in
the fixed order `(2x,2y), (2x+1,2y), (2x,2y+1), (2x+1,2y+1)`. -/
def TileKey.getChildren (t : TileKey) : List TileKey :=
  [⟨t.face, t.level + 1, t.x * 2, t.y * 2⟩,
   ⟨t.face, t.level + 1, t.x * 2 + 1, t.y * 2⟩,
   ⟨t.face, t.level + 1, t.x * 2, t.y * 2 + 1⟩,
   ⟨t.face, t.level + 1, t.x * 2 + 1, t.y * 2 + 1⟩]

/-- `TileKey.rootFaces` from TileKey.ts: the six level-0 faces 0..5. -/
def TileKey.rootFaces : List TileKey :=
  [⟨0, 0, 0, 0⟩, ⟨1, 0, 0, 0⟩, ⟨2, 0, 0, 0⟩, ⟨3, 0, 0, 0⟩, ⟨4, 0, 0, 0⟩, ⟨5, 0, 0, 0⟩]

/-- `TileKey.toNumericKey` from TileKey.ts: packs
`face <<< 60 | level <<< 54 | x <<< 27 | y` (a JS `bigint`, hence unbounded —
no wrap-around). -/
def TileKey.toNumericKey (t : TileKey) : ℕ :=
  t.face <<< 60 ||| t.level <<< 54 ||| t.x <<< 27 ||| t.y

/-- The decimal rendering of a natural number, as the JS template literal
interpolation `${n}` produces it: `"0"` for 0, otherwise the base-10 digits
most-significant first.  JS strings are modelled as `List Char`. -/
def natChars (n : ℕ) : List Char :=
  if n = 0 then ['0'] else ((Nat.digits 10 n).map Nat.digitChar).reverse

/-- `TileKey.toString` from TileKey.ts: the template literal
`${face}/${level}/${x}/${y}` — the four decimal components joined by
slashes. -/
def TileKey.toString (t : TileKey) : List Char :=
  natChars t.face ++ '/' :: (natChars t.level ++ '/' :: (natChars t.x ++ '/' :: natChars t.y))

/-- The numeric value of a decimal digit character (proof machinery for
decoding `natChars`). -/
def charVal (c : Char) : ℕ := c.toNat - 48

/-- Decodes a digit string back to the natural number it renders (proof
machinery: a left inverse of `natChars`). -/
def decodeNatChars (cs : List Char) : ℕ := Nat.ofDigits 10 (cs.reverse.map charVal)

/-- `BoundingSphere` from TileBounds.ts. -/
structure BoundingSphere where
  center : Vec3
  radius : ℝ

/-- `tileToLon` from TileBounds.ts: `(x / 2^z) * 360 - 180` (degrees). -/
noncomputable def tileToLon (x z : ℕ) : ℝ :=
  (x / (2:ℝ) ^ z) * 360.0 - 180.0

/-- `tileToLat` from TileBounds.ts: Web-Mercator tile row to latitude
(degrees), `atan(sinh(π - 2πy/2^z))` written with explicit exponentials. -/
noncomputable def tileToLat (y z : ℕ) : ℝ :=
  let n := Real.pi - 2.0 * Real.pi * y / (2:ℝ) ^ z
  (180.0 / Real.pi) * Real.arctan (0.5 * (Real.exp n - Real.exp (-n)))

/-- `computeTileBoundingSphere` from TileBounds.ts: center = ECEF of the
tile's mid lat/lon at height 0, radius = 1.5 × the farthest of the four
corner-to-center distances. -/
noncomputable def computeTileBoundingSphere (tile : TileKey) : BoundingSphere :=
  let minLon := tileToLon tile.x tile.level * (Real.pi / 180.0)
  let maxLon := tileToLon (tile.x + 1) tile.level * (Real.pi / 180.0)
  let minLat := tileToLat (tile.y + 1) tile.level * (Real.pi / 180.0)
  let maxLat := tileToLat tile.y tile.level * (Real.pi / 180.0)
  let centerLon := (minLon + maxLon) / 2.0
  let centerLat := (minLat + maxLat) / 2.0
  let center := geodeticToECEF ⟨centerLat, centerLon, 0⟩
  let corners := [(minLat, minLon), (minLat, maxLon), (maxLat, minLon), (maxLat, maxLon)]
  let maxDistSq := corners.foldl
    (fun acc c =>
      let pt := geodeticToECEF ⟨c.1, c.2, 0⟩
      let dx := pt.x - center.x
      let dy := pt.y - center.y
      let dz := pt.z - center.z
      let distSq := dx * dx + dy * dy + dz * dz
      if distSq > acc then distSq else acc) 0
  ⟨center, Real.sqrt maxDistSq * 1.5⟩

/-- `computeSSE` from TileBounds.ts. -/
noncomputable def computeSSE (geometricError distanceToCamera screenHeight : ℝ) : ℝ :=
  geometricError / distanceToCamera * screenHeight

/-- `isTileBelowHorizon` from TileBounds.ts: normalizes the camera and tile
positions and compares the cosine of their central angle against
`planetRadius / ‖camera‖`.  Returns (as a `Prop`) whether the tile is culled. -/
noncomputable def isTileBelowHorizon (cameraPos tileCenter : Vec3) (planetRadius : ℝ) : Prop :=
  let camLen := Real.sqrt (cameraPos.x ^ 2 + cameraPos.y ^ 2 + cameraPos.z ^ 2)
  let tileLen := Real.sqrt (tileCenter.x ^ 2 + tileCenter.y ^ 2 + tileCenter.z ^ 2)
  let dot := cameraPos.x / camLen * (tileCenter.x / tileLen) +
    cameraPos.y / camLen * (tileCenter.y / tileLen) +
    cameraPos.z / camLen * (tileCenter.z / tileLen)
  let horizonCos := planetRadius / camLen
  dot < horizonCos

/-- JS `Math.atan2(y, x)` over the reals (degenerate `(0,0)` case gives 0,
matching `Math.atan2(0, 0)`). -/
noncomputable def atan2 (y x : ℝ) : ℝ :=
  if 0 < x then Real.arctan (y / x)
  else if x < 0 then
    (if 0 ≤ y then Real.arctan (y / x) + Real.pi else Real.arctan (y / x) - Real.pi)
  else if 0 < y then Real.pi / 2
  else if y < 0 then -(Real.pi / 2)
  else 0

/-- State of `ecefToGeodetic`'s iteration: the mutable `lat`, `prevLat` and
`height` locals of the `while` loop in PlanetMath.ts. -/
structure GeoIter where
  lat : ℝ
  prevLat : ℝ
  height : ℝ

/-- One body execution of the `while` loop in `ecefToGeodetic`
(PlanetMath.ts). -/
noncomputable def ecefToGeodeticStep (pxy z : ℝ) (s : GeoIter) : GeoIter :=
  let sinLat := Real.sin s.lat
  let N := wgs84a / Real.sqrt (1 - wgs84e2 * sinLat * sinLat)
  let height := pxy / Real.cos s.lat - N
  let lat := atan2 z (pxy * (1 - wgs84e2 * (N / (N + height))))
  ⟨lat, s.lat, height⟩

/-- The `while (Math.abs(lat - prevLat) > 1e-12)` loop of `ecefToGeodetic`.
The SOURCE LOOP IS UNBOUNDED — it has no iteration cap and no error path;
the explicit `fuel` only makes the embedding total, with `none` meaning
"the source loop would still be iterating after `fuel` iterations". -/
noncomputable def ecefToGeodeticLoop (pxy z : ℝ) : ℕ → GeoIter → Option GeoIter
  | 0, s => if |s.lat - s.prevLat| > 1e-12 then none else some s
  | fuel + 1, s =>
    if |s.lat - s.prevLat| > 1e-12 then
      ecefToGeodeticLoop pxy z fuel (ecefToGeodeticStep pxy z s)
    else some s

/-- `ecefToGeodetic` from PlanetMath.ts (with the loop's fuel made explicit,
see `ecefToGeodeticLoop`).  Initial state: `lat = atan2(z, pxy*(1-e2))`,
`prevLat = 0`, `height = 0`. -/
noncomputable def ecefToGeodetic (fuel : ℕ) (p : Vec3) : Option Geodetic :=
  let lon := atan2 p.y p.x
  let pxy := Real.sqrt (p.x * p.x + p.y * p.y)
  let lat0 := atan2 p.z (pxy * (1 - wgs84e2))
  match ecefToGeodeticLoop pxy p.z fuel ⟨lat0, 0, 0⟩ with
  | some s => some ⟨s.lat, lon, s.height⟩
  | none => none

/-- `Plane` from FrustumPlanes.ts: `ax + by + cz + d = 0`. -/
structure Plane where
  a : ℝ
  b : ℝ
  c : ℝ
  d : ℝ

/-- `FrustumPlanes` from FrustumPlanes.ts: exactly 6 planes in the frozen
order [Left, Right, Bottom, Top, Near, Far]. -/
structure FrustumPlanes where
  planes : Fin 6 → Plane

/-- `FrustumPlanes.intersectsSphere` from FrustumPlanes.ts: the loop returns
false as soon as the signed distance to some plane is `< -radius`, and true
if all 6 planes pass. -/
def FrustumPlanes.intersectsSphere (f : FrustumPlanes) (x y z radius : ℝ) : Prop :=
  ∀ i : Fin 6,
    ¬ ((f.planes i).a * x + (f.planes i).b * y + (f.planes i).c * z + (f.planes i).d < -radius)

noncomputable instance FrustumPlanes.decIntersectsSphere (f : FrustumPlanes)
    (x y z radius : ℝ) : Decidable (f.intersectsSphere x y z radius) := by
  unfold FrustumPlanes.intersectsSphere
  infer_instance

/-- JS `1 << level` (QuadtreeManager.ts): both operands are converted to
32-bit signed integers and the shift count is taken mod 32, so the result is
`2^(level % 32)` except when `level % 32 = 31`, where it wraps to `-2^31`. -/
def jsShlOne (level : ℕ) : ℤ :=
  if level % 32 = 31 then -(2 ^ 31) else 2 ^ (level % 32)

/-- `QuadtreeManager.computeGeometricError`: hard-coded equatorial
circumference over 256 pixels, divided by `1 << level`.  It never reads
`config.planetRadius`. -/
noncomputable def computeGeometricError (level : ℕ) : ℝ :=
  let baseError := 40075016.68 / 256.0
  baseError / (jsShlOne level : ℝ)

/-- `QuadtreeConfig` from QuadtreeManager.ts. -/
structure QuadtreeConfig where
  planetRadius : ℝ
  maxLevel : ℕ
  minLevel : ℕ
  sseThreshold : ℝ

/-- `CameraState` from QuadtreeManager.ts. -/
structure CameraState where
  positionECEF : Vec3
  screenHeight : ℝ
  frustum : FrustumPlanes

/-- The manager's `Map<string, TileKey>`, keyed in the source by
`tile.toString() = "face/level/x/y"`.  That string determines and is
determined by the `(face, level, x, y)` quadruple, so the map is modelled as
an insertion-ordered list keyed by the tile identity itself. -/
abbrev TileMap := List TileKey

/-- `Map.has` on the active-tile map. -/
def TileMap.hasKey (m : TileMap) (t : TileKey) : Bool := decide (t ∈ m)

/-- `Map.set` on the active-tile map: JS `Map.set` keeps the original
insertion position when the key exists and replaces the value; here the
stored value equals the key's tile, so replacement leaves the map unchanged,
and a fresh key is appended in insertion order. -/
def TileMap.set (m : TileMap) (t : TileKey) : TileMap :=
  if t ∈ m then m else m ++ [t]

/-- `QuadtreeManager.processTile` (QuadtreeManager.ts), recursion depth made
explicit as `fuel`: the source recursion is bounded because refinement
requires `tile.level < maxLevel` and children are one level deeper, so with
`fuel ≥ maxLevel + 1 - tile.level` the fuel-0 branch is never reached
(`update` below calls it at `maxLevel + 1` from the level-0 roots). -/
noncomputable def processTile (cfg : QuadtreeConfig) (camera : CameraState) :
    ℕ → TileKey → TileMap → TileMap
  | 0, _tile, nextTiles => nextTiles
  | fuel + 1, tile, nextTiles =>
    let bounds := computeTileBoundingSphere tile
    if ¬ camera.frustum.intersectsSphere bounds.center.x bounds.center.y bounds.center.z
        bounds.radius then
      nextTiles
    else
      let dx := bounds.center.x - camera.positionECEF.x
      let dy := bounds.center.y - camera.positionECEF.y
      let dz := bounds.center.z - camera.positionECEF.z
      let distanceToCenter := Real.sqrt (dx * dx + dy * dy + dz * dz)
      let distance := max 0.1 (distanceToCenter - bounds.radius)
      let geometricError := computeGeometricError tile.level
      let sse := geometricError / distance * camera.screenHeight
      if tile.level < cfg.maxLevel ∧ (sse > cfg.sseThreshold ∨ tile.level < cfg.minLevel) then
        let r := tile.getChildren.foldl
          (fun acc child =>
            let childBounds := computeTileBoundingSphere child
            if camera.frustum.intersectsSphere childBounds.center.x childBounds.center.y
                childBounds.center.z childBounds.radius then
              (true, processTile cfg camera fuel child acc.2)
            else acc)
          (false, nextTiles)
        if r.1 then r.2 else r.2.set tile
      else
        nextTiles.set tile

/-- Result record of `QuadtreeManager.update`. -/
structure UpdateResult where
  added : List TileKey
  removed : List TileKey
  active : List TileKey

/-- `QuadtreeManager.update` (QuadtreeManager.ts): rebuild `nextTiles` by
traversing the 6 root faces, diff against the previous `activeTiles` map and
return `(result, new activeTiles state)`. -/
noncomputable def update (cfg : QuadtreeConfig) (camera : CameraState)
    (activeTiles : TileMap) : UpdateResult × TileMap :=
  let nextTiles := TileKey.rootFaces.foldl
    (fun m root => processTile cfg camera (cfg.maxLevel + 1) root m) []
  let added := nextTiles.filter fun t => ! activeTiles.hasKey t
  let removed := activeTiles.filter fun t => ! nextTiles.hasKey t
  let active := nextTiles
  (⟨added, removed, active⟩, nextTiles)

/-- The frustum test applied to a tile's bounding sphere, exactly as at the
top of `processTile`. -/
@[reducible] def tileVisible (camera : CameraState) (t : TileKey) : Prop :=
  camera.frustum.intersectsSphere (computeTileBoundingSphere t).center.x
    (computeTileBoundingSphere t).center.y (computeTileBoundingSphere t).center.z
    (computeTileBoundingSphere t).radius

/-- The screen-space error computed inside `processTile`. -/
@[reducible] noncomputable def sseOf (camera : CameraState) (t : TileKey) : ℝ :=
  computeGeometricError t.level /
    max 0.1 (Real.sqrt
      (((computeTileBoundingSphere t).center.x - camera.positionECEF.x) *
          ((computeTileBoundingSphere t).center.x - camera.positionECEF.x) +
        ((computeTileBoundingSphere t).center.y - camera.positionECEF.y) *
          ((computeTileBoundingSphere t).center.y - camera.positionECEF.y) +
        ((computeTileBoundingSphere t).center.z - camera.positionECEF.z) *
          ((computeTileBoundingSphere t).center.z - camera.positionECEF.z)) -
      (computeTileBoundingSphere t).radius) * camera.screenHeight

/-- The refinement predicate of `processTile`. -/
@[reducible] def shouldRefineP (cfg : QuadtreeConfig) (camera : CameraState)
    (t : TileKey) : Prop :=
  t.level < cfg.maxLevel ∧ (sseOf camera t > cfg.sseThreshold ∨ t.level < cfg.minLevel)

/-- The body of `processTile`'s loop over the four children. -/
@[reducible] noncomputable def childStep (cfg : QuadtreeConfig) (camera : CameraState)
    (fuel : ℕ) (acc : Bool × TileMap) (child : TileKey) : Bool × TileMap :=
  if tileVisible camera child then (true, processTile cfg camera fuel child acc.2) else acc

/-- `u` lies in the quadtree subtree rooted at `t` (same face, deeper level,
coordinates inside `t`'s quadrant range). -/
def inSubtree (t u : TileKey) : Prop :=
  t.face = u.face ∧ t.level ≤ u.level ∧
    t.x * 2 ^ (u.level - t.level) ≤ u.x ∧ u.x < (t.x + 1) * 2 ^ (u.level - t.level) ∧
    t.y * 2 ^ (u.level - t.level) ≤ u.y ∧ u.y < (t.y + 1) * 2 ^ (u.level - t.level)

theorem Vec3.ext_iff' {v w : Vec3} : v = w ↔ v.x = w.x ∧ v.y = w.y ∧ v.z = w.z := by
  constructor
  · rintro rfl; exact ⟨rfl, rfl, rfl⟩
  · rcases v with ⟨a, b, c⟩
    rcases w with ⟨d, e, f⟩
    rintro ⟨h1, h2, h3⟩
    simp only at h1 h2 h3
    rw [h1, h2, h3]

lemma shiftLeft_lor_eq_add : ∀ (n a b : ℕ), b < 2 ^ n → a <<< n ||| b = a * 2 ^ n + b := by
  intro n
  induction n with
  | zero =>
    intro a b hb
    have hb0 : b = 0 := by omega
    subst hb0
    simp [Nat.shiftLeft_zero, Nat.or_zero]
  | succ n ih =>
    intro a b hb
    have hd : Nat.div2 b < 2 ^ n := by
      rw [Nat.div2_val]
      have h2 : 2 ^ (n + 1) = 2 * 2 ^ n := by ring
      omega
    have h1 : a <<< (n + 1) = Nat.bit false (a <<< n) := by
      rw [Nat.shiftLeft_succ, Nat.bit_val]
      simp
    have h2 : b = Nat.bit (Nat.bodd b) (Nat.div2 b) := (Nat.bit_decomp b).symm
    rw [h1]
    conv_lhs => rw [h2]
    rw [Nat.lor_bit, ih a (Nat.div2 b) hd]
    simp only [Bool.false_or]
    rw [Nat.bit_val, pow_succ]
    have h3 := Nat.bodd_add_div2 b
    linarith

lemma toNumericKey_eq_add (t : TileKey) (hl : t.level < 64)
    (hx : t.x < 2 ^ 27) (hy : t.y < 2 ^ 27) :
    t.toNumericKey = t.face * 2 ^ 60 + t.level * 2 ^ 54 + t.x * 2 ^ 27 + t.y := by
  unfold TileKey.toNumericKey
  rw [Nat.lor_assoc, Nat.lor_assoc]
  have e27 : (2:ℕ) ^ 27 = 134217728 := by norm_num
  have e54 : (2:ℕ) ^ 54 = 18014398509481984 := by norm_num
  have e60 : (2:ℕ) ^ 60 = 1152921504606846976 := by norm_num
  rw [shiftLeft_lor_eq_add 27 t.x t.y hy]
  rw [shiftLeft_lor_eq_add 54 t.level _ (by omega)]
  rw [shiftLeft_lor_eq_add 60 t.face _ (by omega)]
  omega

/-- C9 counterexample: two distinct, successfully constructed tiles whose
packed numeric keys coincide.  Tile `(0,0,1,0)` and tile `(0,0,0,2^27)` both
pass constructor validation (which does not bound `x`,`y` from above), yet
`x = 1` lands in the same bit position as `y = 2^27`. -/
theorem toNumericKey_collision :
    mkTileKey 0 0 1 0 = some ⟨0, 0, 1, 0⟩ ∧
    mkTileKey 0 0 0 134217728 = some ⟨0, 0, 0, 134217728⟩ ∧
    (⟨0, 0, 1, 0⟩ : TileKey) ≠ ⟨0, 0, 0, 134217728⟩ ∧
    TileKey.toNumericKey ⟨0, 0, 1, 0⟩ = TileKey.toNumericKey ⟨0, 0, 0, 134217728⟩ := by
  refine ⟨rfl, rfl, by decide, by decide⟩

lemma charVal_digitChar {d : ℕ} (hd : d < 10) : charVal (Nat.digitChar d) = d := by
  interval_cases d <;> rfl

lemma map_charVal_digitChar {l : List ℕ} (h : ∀ d ∈ l, d < 10) :
    (l.map Nat.digitChar).map charVal = l := by
  induction l with
  | nil => rfl
  | cons d l2 ih =>
    simp only [List.map_cons]
    rw [charVal_digitChar (h d (List.mem_cons_self d l2)),
      ih (fun e he => h e (List.mem_cons_of_mem _ he))]

lemma decode_natChars (n : ℕ) : decodeNatChars (natChars n) = n := by
  unfold natChars decodeNatChars
  by_cases h : n = 0
  · rw [if_pos h, h]
    rfl
  · rw [if_neg h, List.reverse_reverse,
      map_charVal_digitChar (fun d hd => Nat.digits_lt_base (by norm_num) hd),
      Nat.ofDigits_digits]

lemma natChars_inj {n m : ℕ} (h : natChars n = natChars m) : n = m := by
  have h2 := congrArg decodeNatChars h
  rwa [decode_natChars, decode_natChars] at h2

lemma digitChar_ne_slash {d : ℕ} (hd : d < 10) : Nat.digitChar d ≠ '/' := by
  interval_cases d <;> decide

lemma natChars_ne_slash (n : ℕ) : ∀ c ∈ natChars n, c ≠ '/' := by
  intro c hc
  unfold natChars at hc
  by_cases h : n = 0
  · rw [if_pos h, List.mem_singleton] at hc
    rw [hc]
    decide
  · rw [if_neg h, List.mem_reverse] at hc
    rcases List.mem_map.mp hc with ⟨d, hd, rfl⟩
    exact digitChar_ne_slash (Nat.digits_lt_base (by norm_num) hd)

lemma append_slash_cancel :
    ∀ (a b s t : List Char), (∀ c ∈ a, c ≠ '/') → (∀ c ∈ b, c ≠ '/') →
      a ++ '/' :: s = b ++ '/' :: t → a = b ∧ s = t := by
  intro a
  induction a with
  | nil =>
    intro b s t _ hb h
    cases b with
    | nil =>
      simp only [List.nil_append] at h
      injection h with _ h2
      exact ⟨rfl, h2⟩
    | cons d b2 =>
      simp only [List.nil_append, List.cons_append] at h
      injection h with h1 _
      exact absurd h1.symm (hb d (List.mem_cons_self d b2))
  | cons c a2 ih =>
    intro b s t ha hb h
    cases b with
    | nil =>
      simp only [List.cons_append, List.nil_append] at h
      injection h with h1 _
      exact absurd h1 (ha c (List.mem_cons_self c a2))
    | cons d b2 =>
      simp only [List.cons_append] at h
      injection h with h1 h2
      obtain ⟨he, hst⟩ := ih b2 s t (fun e he2 => ha e (List.mem_cons_of_mem _ he2))
        (fun e he2 => hb e (List.mem_cons_of_mem _ he2)) h2
      exact ⟨by rw [h1, he], hst⟩

/-- The packed numeric key is injective on tiles within the packing widths
(`level < 2^6`, `x < 2^27`, `y < 2^27`). -/
lemma toNumericKey_inj_of_bounds (t1 t2 : TileKey)
    (h1l : t1.level < 64) (h1x : t1.x < 2 ^ 27) (h1y : t1.y < 2 ^ 27)
    (h2l : t2.level < 64) (h2x : t2.x < 2 ^ 27) (h2y : t2.y < 2 ^ 27)
    (heq : t1.toNumericKey = t2.toNumericKey) : t1 = t2 := by
  rw [toNumericKey_eq_add t1 h1l h1x h1y, toNumericKey_eq_add t2 h2l h2x h2y] at heq
  have e27 : (2:ℕ) ^ 27 = 134217728 := by norm_num
  have e54 : (2:ℕ) ^ 54 = 18014398509481984 := by norm_num
  have e60 : (2:ℕ) ^ 60 = 1152921504606846976 := by norm_num
  rcases t1 with ⟨f1, l1, x1, y1⟩
  rcases t2 with ⟨f2, l2, x2, y2⟩
  simp only at heq h1l h1x h1y h2l h2x h2y
  have : f1 = f2 ∧ l1 = l2 ∧ x1 = x2 ∧ y1 = y2 := by omega
  rcases this with ⟨rfl, rfl, rfl, rfl⟩
  rfl

/-- C9 amended: key uniqueness split by key kind.  The string key
`"face/level/x/y"` (`TileKey.toString`) never collides — it is injective on
ALL tiles, since the decimal components contain no slash.  The packed
numeric key is NOT injective on all constructible tiles (see
`toNumericKey_collision`), but is injective once `level` fits in 6 bits and
`x`, `y` in 27 bits. -/
theorem tileKey_keys_inj (t1 t2 : TileKey) :
    (TileKey.toString t1 = TileKey.toString t2 → t1 = t2) ∧
    (t1.level < 64 → t1.x < 2 ^ 27 → t1.y < 2 ^ 27 →
      t2.level < 64 → t2.x < 2 ^ 27 → t2.y < 2 ^ 27 →
      t1.toNumericKey = t2.toNumericKey → t1 = t2) := by
  constructor
  · intro h
    unfold TileKey.toString at h
    obtain ⟨hf, h⟩ := append_slash_cancel _ _ _ _ (natChars_ne_slash _)
      (natChars_ne_slash _) h
    obtain ⟨hl, h⟩ := append_slash_cancel _ _ _ _ (natChars_ne_slash _)
      (natChars_ne_slash _) h
    obtain ⟨hx, hy⟩ := append_slash_cancel _ _ _ _ (natChars_ne_slash _)
      (natChars_ne_slash _) h
    rcases t1 with ⟨f1, l1, x1, y1⟩
    rcases t2 with ⟨f2, l2, x2, y2⟩
    simp only [TileKey.mk.injEq]
    exact ⟨natChars_inj hf, natChars_inj hl, natChars_inj hx, natChars_inj hy⟩
  · intro h1l h1x h1y h2l h2x h2y heq
    exact toNumericKey_inj_of_bounds t1 t2 h1l h1x h1y h2l h2x h2y heq

theorem tileKey_keys_inj_witness :
    ((⟨0, 0, 1, 0⟩ : TileKey) = ⟨0, 0, 1, 0⟩) ∧ ((⟨5, 63, 7, 9⟩ : TileKey) = ⟨5, 63, 7, 9⟩) :=
  ⟨(tileKey_keys_inj ⟨0, 0, 1, 0⟩ ⟨0, 0, 1, 0⟩).1 rfl,
   (tileKey_keys_inj ⟨5, 63, 7, 9⟩ ⟨5, 63, 7, 9⟩).2 (by norm_num) (by norm_num) (by norm_num)
     (by norm_num) (by norm_num) (by norm_num) rfl⟩

/-- C5 counterexample: constructing a tile with `x ≥ 2^level` does NOT fail:
`mkTileKey 0 0 5 0` succeeds even though `5 ≥ 2^0`.  The constructor never
checks `x < 2^level`. -/
theorem mkTileKey_accepts_x_ge_pow :
    mkTileKey 0 0 5 0 = some ⟨0, 0, 5, 0⟩ ∧ (2:ℤ) ^ (0:ℕ) ≤ 5 := by
  exact ⟨rfl, by norm_num⟩

/-- C5 amended: the constructor rejects `face ∉ [0,5]`, negative `level`,
negative `x` or `y` with an error and otherwise stores the arguments
unchanged (no clamping); it does not enforce `x < 2^level` or `y < 2^level`. -/
theorem mkTileKey_validation (face level x y : ℤ) :
    (0 ≤ face ∧ face ≤ 5 ∧ 0 ≤ level ∧ 0 ≤ x ∧ 0 ≤ y →
      mkTileKey face level x y = some ⟨face.toNat, level.toNat, x.toNat, y.toNat⟩) ∧
    (face < 0 ∨ 5 < face ∨ level < 0 ∨ x < 0 ∨ y < 0 →
      mkTileKey face level x y = none) := by
  refine ⟨fun h => ?_, fun h => ?_⟩ <;>
    simp only [mkTileKey] <;>
    split_ifs with h1 h2 h3 <;>
    first | rfl | omega

theorem mkTileKey_validation_witness : mkTileKey 6 0 0 0 = none :=
  (mkTileKey_validation 6 0 0 0).2 (Or.inr (Or.inl (by norm_num)))

/-- C10: `computeTileBoundingSphere` never reads the cube face: two tiles
agreeing on `(level, x, y)` but with different `face` indices get identical
bounding spheres (the tile→lon/lat mapping is a function of level/x/y only). -/
theorem computeTileBoundingSphere_face_independent (f1 f2 l x y : ℕ) :
    computeTileBoundingSphere ⟨f1, l, x, y⟩ = computeTileBoundingSphere ⟨f2, l, x, y⟩ := rfl

/-- C4 counterexample: camera at ECEF `(3,0,0)` with `planetRadius = 5` is
strictly below the planet surface (`‖camera‖ = 3 ≤ 5`), yet
`isTileBelowHorizon` reports the tile centered at `(0,4,0)` as culled —
the code has no below-surface guard, contradicting the claim that the
predicate returns false whenever `‖cameraECEF‖ ≤ planetRadius`. -/
theorem isTileBelowHorizon_culls_below_surface :
    Real.sqrt ((3:ℝ) ^ 2 + 0 ^ 2 + 0 ^ 2) ≤ 5 ∧
    isTileBelowHorizon ⟨3, 0, 0⟩ ⟨0, 4, 0⟩ 5 := by
  have h9 : Real.sqrt ((3:ℝ) ^ 2 + 0 ^ 2 + 0 ^ 2) = 3 := by
    rw [show (3:ℝ) ^ 2 + 0 ^ 2 + 0 ^ 2 = 3 ^ 2 by norm_num, Real.sqrt_sq]
    norm_num
  constructor
  · rw [h9]; norm_num
  · unfold isTileBelowHorizon
    simp only
    rw [h9]
    norm_num

/-- C4 amended: `isTileBelowHorizon` performs no below-surface check; whenever
the camera is at or below the planet surface (with nonzero norm) the
comparison threshold `planetRadius/‖camera‖` is at least 1, so any tile whose
normalized direction has dot product `< 1` with the camera direction is
reported below the horizon (culled), the opposite of what the spec states. -/
theorem isTileBelowHorizon_no_surface_guard (cameraPos tileCenter : Vec3) (planetRadius : ℝ)
    (hpos : 0 < Real.sqrt (cameraPos.x ^ 2 + cameraPos.y ^ 2 + cameraPos.z ^ 2))
    (hle : Real.sqrt (cameraPos.x ^ 2 + cameraPos.y ^ 2 + cameraPos.z ^ 2) ≤ planetRadius)
    (hdot : cameraPos.x / Real.sqrt (cameraPos.x ^ 2 + cameraPos.y ^ 2 + cameraPos.z ^ 2) *
        (tileCenter.x / Real.sqrt (tileCenter.x ^ 2 + tileCenter.y ^ 2 + tileCenter.z ^ 2)) +
      cameraPos.y / Real.sqrt (cameraPos.x ^ 2 + cameraPos.y ^ 2 + cameraPos.z ^ 2) *
        (tileCenter.y / Real.sqrt (tileCenter.x ^ 2 + tileCenter.y ^ 2 + tileCenter.z ^ 2)) +
      cameraPos.z / Real.sqrt (cameraPos.x ^ 2 + cameraPos.y ^ 2 + cameraPos.z ^ 2) *
        (tileCenter.z / Real.sqrt (tileCenter.x ^ 2 + tileCenter.y ^ 2 + tileCenter.z ^ 2)) < 1) :
    isTileBelowHorizon cameraPos tileCenter planetRadius := by
  unfold isTileBelowHorizon
  simp only
  have h1 : 1 ≤ planetRadius / Real.sqrt (cameraPos.x ^ 2 + cameraPos.y ^ 2 + cameraPos.z ^ 2) :=
    (one_le_div hpos).mpr hle
  exact lt_of_lt_of_le hdot h1

theorem isTileBelowHorizon_no_surface_guard_witness :
    isTileBelowHorizon ⟨0, 0, 3⟩ ⟨4, 0, 0⟩ 7 := by
  have h9 : Real.sqrt ((0:ℝ) ^ 2 + 0 ^ 2 + 3 ^ 2) = 3 := by
    rw [show (0:ℝ) ^ 2 + 0 ^ 2 + 3 ^ 2 = 3 ^ 2 by norm_num, Real.sqrt_sq]
    norm_num
  exact isTileBelowHorizon_no_surface_guard ⟨0, 0, 3⟩ ⟨4, 0, 0⟩ 7
    (by rw [h9]; norm_num) (by rw [h9]; norm_num) (by norm_num)

lemma atan2_pos_zero {z : ℝ} (hz : 0 < z) : atan2 z 0 = Real.pi / 2 := by
  unfold atan2
  rw [if_neg (lt_irrefl 0), if_neg (lt_irrefl 0), if_pos hz]

lemma atan2_zero_zero : atan2 0 0 = 0 := by
  unfold atan2
  rw [if_neg (lt_irrefl 0), if_neg (lt_irrefl 0), if_neg (lt_irrefl 0), if_neg (lt_irrefl 0)]

/-- C8: at the north-pole-axis input `(0, 0, 6356752)` — a point essentially
on the Earth surface, well outside any degenerate core — the iteration of
`ecefToGeodetic` exits after a single step (it "converges" because the next
latitude equals the previous one exactly) and silently returns
`height = -a/√(1-e²) ≈ -6.4·10⁶ m`, wildly wrong (the true geodetic height is
≈ 0).  No iteration cap exists and no `NumericDivergence` error is defined or
raised anywhere in the source: the only exit from the loop is the convergence
test, and wrong answers are returned silently. -/
theorem ecefToGeodetic_pole_silent_wrong :
    ecefToGeodetic 1 ⟨0, 0, 6356752⟩ =
      some ⟨Real.pi / 2, 0, 0 - wgs84a / Real.sqrt (1 - wgs84e2)⟩ ∧
    0 - wgs84a / Real.sqrt (1 - wgs84e2) < -6000000 := by
  have he2lt : wgs84e2 < 1 := by
    unfold wgs84e2 wgs84f
    norm_num
  have he2pos : 0 < wgs84e2 := by
    unfold wgs84e2 wgs84f
    norm_num
  have hsle : Real.sqrt (1 - wgs84e2) ≤ 1 := Real.sqrt_le_one.mpr (by linarith)
  have hspos : 0 < Real.sqrt (1 - wgs84e2) := Real.sqrt_pos.mpr (by linarith)
  have hNge : wgs84a ≤ wgs84a / Real.sqrt (1 - wgs84e2) := by
    rw [le_div_iff₀ hspos]
    have ha : (0:ℝ) < wgs84a := by unfold wgs84a; norm_num
    nlinarith
  constructor
  · have hz : (0:ℝ) < 6356752 := by norm_num
    have hpxy : Real.sqrt ((0:ℝ) * 0 + 0 * 0) = 0 := by
      rw [show (0:ℝ) * 0 + 0 * 0 = 0 by norm_num, Real.sqrt_zero]
    have hlat0 : atan2 (6356752:ℝ) ((0:ℝ) * (1 - wgs84e2)) = Real.pi / 2 := by
      rw [zero_mul]
      exact atan2_pos_zero hz
    have hcond : |Real.pi / 2 - 0| > 1e-12 := by
      rw [sub_zero, abs_of_pos Real.pi_div_two_pos]
      have h3 := Real.pi_gt_three
      norm_num
      linarith
    have hcond2 : ¬ (|Real.pi / 2 - Real.pi / 2| > 1e-12) := by
      rw [sub_self, abs_zero]
      norm_num
    have hstep : ecefToGeodeticStep 0 6356752 ⟨Real.pi / 2, 0, 0⟩ =
        ⟨Real.pi / 2, Real.pi / 2, 0 - wgs84a / Real.sqrt (1 - wgs84e2)⟩ := by
      unfold ecefToGeodeticStep
      simp only [Real.sin_pi_div_two, Real.cos_pi_div_two, mul_one, zero_div, zero_mul]
      rw [atan2_pos_zero hz]
    simp only [ecefToGeodetic, hpxy, hlat0, ecefToGeodeticLoop, hcond, if_true, hstep,
      hcond2, if_false, atan2_zero_zero]
  · have ha : (6378137:ℝ) ≤ wgs84a := by unfold wgs84a; norm_num
    have := le_trans ha hNge
    linarith

/-- C3 counterexample: at `level = 0` with the configured
`planetRadius = 6378137` the code's geometric error `40075016.68/256 ≈
1.57·10⁵` differs from the spec formula `π·planetRadius/2^(0+1) ≈ 10⁷`. -/
theorem computeGeometricError_ne_spec_formula :
    computeGeometricError 0 ≠ Real.pi * 6378137 / 2 ^ (0 + 1) := by
  have hval : computeGeometricError 0 = 40075016.68 / 256 := by
    unfold computeGeometricError jsShlOne
    norm_num
  rw [hval]
  have h3 := Real.pi_gt_three
  intro heq
  norm_num at heq
  linarith

/-- C3 amended: the per-level geometric error is the hard-coded
`40075016.68 / 256 / 2^level` (equatorial circumference over 256 pixels),
independent of the configured `planetRadius`; it does still halve from each
level to the next (stated for levels below the JS 32-bit shift wrap-around,
which covers every level the manager can visit in practice). -/
theorem computeGeometricError_hardcoded_halving (level : ℕ) (h : level + 1 ≤ 30) :
    computeGeometricError level = 40075016.68 / 256 / 2 ^ level ∧
    computeGeometricError (level + 1) * 2 = computeGeometricError level := by
  have h32 : level % 32 = level := Nat.mod_eq_of_lt (by omega)
  have h32b : (level + 1) % 32 = level + 1 := Nat.mod_eq_of_lt (by omega)
  have hne : level % 32 ≠ 31 := by omega
  have hne2 : (level + 1) % 32 ≠ 31 := by omega
  unfold computeGeometricError jsShlOne
  rw [if_neg hne2, if_neg hne, h32, h32b]
  have hpow : (0:ℝ) < 2 ^ level := by positivity
  constructor
  · push_cast
    ring
  · push_cast
    rw [pow_succ]
    field_simp
    ring

theorem computeGeometricError_hardcoded_halving_witness :
    computeGeometricError 0 = 40075016.68 / 256 / 2 ^ 0 ∧
    computeGeometricError (0 + 1) * 2 = computeGeometricError 0 :=
  computeGeometricError_hardcoded_halving 0 (by norm_num)

/-- C2: determinism of `update`.  For every camera and every starting
manager state, a second `update` with the same camera returns the same
active list and empty added/removed deltas: the traversal result depends
only on config and camera, and the second diff is against itself. -/
theorem update_deterministic (cfg : QuadtreeConfig) (camera : CameraState) (st : TileMap) :
    (update cfg camera (update cfg camera st).2).1.active = (update cfg camera st).1.active ∧
    (update cfg camera (update cfg camera st).2).1.added = [] ∧
    (update cfg camera (update cfg camera st).2).1.removed = [] := by
  unfold update
  simp only
  refine ⟨by trivial, ?_, ?_⟩ <;>
    rw [List.filter_eq_nil_iff] <;>
    intro t ht <;>
    simp [TileMap.hasKey, ht]

/-- C1: parent-retain rule.  If a tile's bounding sphere passes the frustum
test, the refinement predicate decides to refine (`level < maxLevel` and
either the screen-space error exceeds the threshold or `level < minLevel`),
but none of the 4 children's bounding spheres pass the frustum test, then
`processTile` adds exactly the parent tile to the active map and recurses
into no child: the frustum-visible region keeps a representative tile. -/
theorem processTile_parent_retain (cfg : QuadtreeConfig) (camera : CameraState)
    (tile : TileKey) (m : TileMap) (fuel : ℕ)
    (hvis : camera.frustum.intersectsSphere (computeTileBoundingSphere tile).center.x
      (computeTileBoundingSphere tile).center.y (computeTileBoundingSphere tile).center.z
      (computeTileBoundingSphere tile).radius)
    (hmax : tile.level < cfg.maxLevel)
    (href : computeGeometricError tile.level /
          max 0.1
            (Real.sqrt
              (((computeTileBoundingSphere tile).center.x - camera.positionECEF.x) *
                  ((computeTileBoundingSphere tile).center.x - camera.positionECEF.x) +
                ((computeTileBoundingSphere tile).center.y - camera.positionECEF.y) *
                  ((computeTileBoundingSphere tile).center.y - camera.positionECEF.y) +
                ((computeTileBoundingSphere tile).center.z - camera.positionECEF.z) *
                  ((computeTileBoundingSphere tile).center.z - camera.positionECEF.z)) -
              (computeTileBoundingSphere tile).radius) *
          camera.screenHeight > cfg.sseThreshold ∨ tile.level < cfg.minLevel)
    (hchild : ∀ c ∈ tile.getChildren,
      ¬ camera.frustum.intersectsSphere (computeTileBoundingSphere c).center.x
        (computeTileBoundingSphere c).center.y (computeTileBoundingSphere c).center.z
        (computeTileBoundingSphere c).radius) :
    processTile cfg camera (fuel + 1) tile m = TileMap.set m tile := by
  have h1 := hchild ⟨tile.face, tile.level + 1, tile.x * 2, tile.y * 2⟩
    (by simp [TileKey.getChildren])
  have h2 := hchild ⟨tile.face, tile.level + 1, tile.x * 2 + 1, tile.y * 2⟩
    (by simp [TileKey.getChildren])
  have h3 := hchild ⟨tile.face, tile.level + 1, tile.x * 2, tile.y * 2 + 1⟩
    (by simp [TileKey.getChildren])
  have h4 := hchild ⟨tile.face, tile.level + 1, tile.x * 2 + 1, tile.y * 2 + 1⟩
    (by simp [TileKey.getChildren])
  simp only [processTile, TileKey.getChildren, List.foldl]
  rw [if_neg (not_not_intro hvis), if_pos ⟨hmax, href⟩, if_neg h1, if_neg h2, if_neg h3,
    if_neg h4]
  simp

lemma lonRad00 : tileToLon 0 0 * (Real.pi / 180.0) = -Real.pi := by
  unfold tileToLon
  push_cast
  ring

lemma lonRad10 : tileToLon (0 + 1) 0 * (Real.pi / 180.0) = Real.pi := by
  unfold tileToLon
  push_cast
  ring

lemma lonRad01 : tileToLon 0 1 * (Real.pi / 180.0) = -Real.pi := by
  unfold tileToLon
  push_cast
  ring

lemma lonRad11 : tileToLon (0 + 1) 1 * (Real.pi / 180.0) = 0 := by
  unfold tileToLon
  push_cast
  norm_num

lemma lonRad11' : tileToLon 1 1 * (Real.pi / 180.0) = 0 := by
  unfold tileToLon
  push_cast
  norm_num

lemma lonRad21 : tileToLon (1 + 1) 1 * (Real.pi / 180.0) = Real.pi := by
  unfold tileToLon
  push_cast
  ring

lemma latRad (y z : ℕ) :
    tileToLat y z * (Real.pi / 180.0) =
      Real.arctan (Real.sinh (Real.pi - 2.0 * Real.pi * y / (2:ℝ) ^ z)) := by
  unfold tileToLat
  simp only
  rw [show (0.5:ℝ) * (Real.exp (Real.pi - 2.0 * Real.pi * y / (2:ℝ) ^ z) -
      Real.exp (-(Real.pi - 2.0 * Real.pi * y / (2:ℝ) ^ z))) =
      Real.sinh (Real.pi - 2.0 * Real.pi * y / (2:ℝ) ^ z) from by rw [Real.sinh_eq]; ring]
  have hπ := Real.pi_ne_zero
  field_simp

lemma latRad00 : tileToLat 0 0 * (Real.pi / 180.0) = Real.arctan (Real.sinh Real.pi) := by
  rw [latRad]
  congr 1
  push_cast
  ring

lemma latRad10 : tileToLat (0 + 1) 0 * (Real.pi / 180.0) =
    Real.arctan (Real.sinh (-Real.pi)) := by
  rw [latRad]
  congr 1
  push_cast
  ring

lemma latRad01 : tileToLat 0 1 * (Real.pi / 180.0) = Real.arctan (Real.sinh Real.pi) := by
  rw [latRad]
  congr 1
  push_cast
  ring

lemma latRad11 : tileToLat (0 + 1) 1 * (Real.pi / 180.0) = 0 := by
  rw [latRad]
  rw [show Real.pi - 2.0 * Real.pi * ((0:ℕ) + 1 : ℕ) / (2:ℝ) ^ (1:ℕ) = 0 from by
    push_cast; ring]
  rw [Real.sinh_zero, Real.arctan_zero]

lemma latRad11' : tileToLat 1 1 * (Real.pi / 180.0) = 0 := by
  rw [latRad]
  rw [show Real.pi - 2.0 * Real.pi * ((1:ℕ) : ℝ) / (2:ℝ) ^ (1:ℕ) = 0 from by
    push_cast; ring]
  rw [Real.sinh_zero, Real.arctan_zero]

lemma latRad21 : tileToLat (1 + 1) 1 * (Real.pi / 180.0) =
    Real.arctan (Real.sinh (-Real.pi)) := by
  rw [latRad]
  congr 1
  push_cast
  ring

lemma expPi_ge_four : (4:ℝ) ≤ Real.exp Real.pi := by
  have h1 := Real.add_one_le_exp Real.pi
  have h2 := Real.pi_gt_three
  linarith

lemma coshPi_ge_two : (2:ℝ) ≤ Real.cosh Real.pi := by
  rw [Real.cosh_eq]
  have h1 := expPi_ge_four
  have h2 : 0 < Real.exp (-Real.pi) := Real.exp_pos _
  linarith

lemma sinhPi_pos : 0 < Real.sinh Real.pi := by
  rw [Real.sinh_eq]
  have h1 := expPi_ge_four
  have h2 : Real.exp (-Real.pi) ≤ 1 := by
    rw [Real.exp_le_one_iff]
    have := Real.pi_pos
    linarith
  linarith

lemma tanhPi_ge : (15:ℝ) / 17 ≤ Real.sinh Real.pi / Real.cosh Real.pi := by
  have hE : 4 ≤ Real.exp Real.pi := expPi_ge_four
  have hE0 : 0 < Real.exp Real.pi := Real.exp_pos _
  have hinv : Real.exp (-Real.pi) = (Real.exp Real.pi)⁻¹ := Real.exp_neg _
  have hinvle : (Real.exp Real.pi)⁻¹ ≤ 1 / 4 := by
    rw [inv_le_comm₀ hE0 (by norm_num)]
    linarith
  have hinv0 : 0 < (Real.exp Real.pi)⁻¹ := by positivity
  have hcosh : 0 < Real.cosh Real.pi := Real.cosh_pos _
  rw [le_div_iff₀ hcosh, Real.sinh_eq, Real.cosh_eq, hinv]
  nlinarith

lemma tanhPi_le_one : Real.sinh Real.pi / Real.cosh Real.pi ≤ 1 := by
  have h := Real.sinh_lt_cosh Real.pi
  have hc := Real.cosh_pos Real.pi
  rw [div_le_one hc]
  linarith

lemma tanhPi_nonneg : 0 ≤ Real.sinh Real.pi / Real.cosh Real.pi :=
  div_nonneg sinhPi_pos.le (Real.cosh_pos _).le

lemma sinL_eq : Real.sin (Real.arctan (Real.sinh Real.pi)) =
    Real.sinh Real.pi / Real.cosh Real.pi := by
  rw [Real.sin_arctan]
  congr 1
  rw [show (1:ℝ) + Real.sinh Real.pi ^ 2 = Real.cosh Real.pi ^ 2 from by
    rw [Real.cosh_sq]; ring]
  exact Real.sqrt_sq (Real.cosh_pos _).le

lemma cosL_eq : Real.cos (Real.arctan (Real.sinh Real.pi)) = 1 / Real.cosh Real.pi := by
  rw [Real.cos_arctan]
  congr 1
  rw [show (1:ℝ) + Real.sinh Real.pi ^ 2 = Real.cosh Real.pi ^ 2 from by
    rw [Real.cosh_sq]; ring]
  exact Real.sqrt_sq (Real.cosh_pos _).le

lemma invCoshPi_le_half : 1 / Real.cosh Real.pi ≤ 1 / 2 := by
  have h2 := coshPi_ge_two
  have hc := Real.cosh_pos Real.pi
  rw [div_le_div_iff₀ hc (by norm_num)]
  linarith

lemma invCoshPi_nonneg : 0 ≤ 1 / Real.cosh Real.pi :=
  div_nonneg zero_le_one (Real.cosh_pos _).le

lemma e2_pos : 0 < wgs84e2 := by
  unfold wgs84e2 wgs84f
  norm_num

lemma e2_lt : wgs84e2 < 1 / 100 := by
  unfold wgs84e2 wgs84f
  norm_num

lemma wgs84a_eq : wgs84a = 6378137 := by
  unfold wgs84a
  norm_num

lemma N_bounds (s : ℝ) (hs : s ^ 2 ≤ 1) :
    wgs84a ≤ wgs84a / Real.sqrt (1 - wgs84e2 * s * s) ∧
    wgs84a / Real.sqrt (1 - wgs84e2 * s * s) ≤ 6443000 := by
  have he2a := e2_pos
  have he2b := e2_lt
  have ha : (0:ℝ) < wgs84a := by rw [wgs84a_eq]; norm_num
  have hss : s * s = s ^ 2 := by ring
  have h1 : wgs84e2 * s * s ≤ 1 / 100 := by
    have : wgs84e2 * s * s = wgs84e2 * s ^ 2 := by ring
    nlinarith [sq_nonneg s]
  have h0 : 0 ≤ wgs84e2 * s * s := by nlinarith [sq_nonneg s]
  have hle1 : Real.sqrt (1 - wgs84e2 * s * s) ≤ 1 := Real.sqrt_le_one.mpr (by linarith)
  have hge : (0.99:ℝ) ≤ Real.sqrt (1 - wgs84e2 * s * s) := by
    rw [show (0.99:ℝ) = Real.sqrt (0.99 ^ 2) from (Real.sqrt_sq (by norm_num)).symm]
    apply Real.sqrt_le_sqrt
    norm_num
    linarith
  have hpos : 0 < Real.sqrt (1 - wgs84e2 * s * s) := by linarith
  constructor
  · rw [le_div_iff₀ hpos]
    nlinarith
  · rw [div_le_iff₀ hpos]
    have haeq := wgs84a_eq
    nlinarith

lemma geodeticToECEF_zero : geodeticToECEF ⟨0, 0, 0⟩ = ⟨wgs84a, 0, 0⟩ := by
  unfold geodeticToECEF
  simp [Real.sin_zero, Real.cos_zero, Real.sqrt_one]

lemma radius_fold_lb (d1 d2 d3 d4 c r : ℝ) (hc : 0 ≤ c) (h3 : c ^ 2 ≤ d3)
    (hr : r ≤ c * 1.5) :
    r ≤ Real.sqrt
      (let t1 := if d1 > (0:ℝ) then d1 else 0
       let t2 := if d2 > t1 then d2 else t1
       let t3 := if d3 > t2 then d3 else t2
       if d4 > t3 then d4 else t3) * 1.5 := by
  simp only
  have hT : c ^ 2 ≤
      (if d4 > (if d3 > (if d2 > (if d1 > (0:ℝ) then d1 else 0) then d2 else
        (if d1 > (0:ℝ) then d1 else 0)) then d3 else (if d2 > (if d1 > (0:ℝ) then d1 else 0)
        then d2 else (if d1 > (0:ℝ) then d1 else 0))) then d4 else
        (if d3 > (if d2 > (if d1 > (0:ℝ) then d1 else 0) then d2 else
        (if d1 > (0:ℝ) then d1 else 0)) then d3 else (if d2 > (if d1 > (0:ℝ) then d1 else 0)
        then d2 else (if d1 > (0:ℝ) then d1 else 0)))) := by
    split_ifs <;> linarith
  have hT0 : 0 ≤
      (if d4 > (if d3 > (if d2 > (if d1 > (0:ℝ) then d1 else 0) then d2 else
        (if d1 > (0:ℝ) then d1 else 0)) then d3 else (if d2 > (if d1 > (0:ℝ) then d1 else 0)
        then d2 else (if d1 > (0:ℝ) then d1 else 0))) then d4 else
        (if d3 > (if d2 > (if d1 > (0:ℝ) then d1 else 0) then d2 else
        (if d1 > (0:ℝ) then d1 else 0)) then d3 else (if d2 > (if d1 > (0:ℝ) then d1 else 0)
        then d2 else (if d1 > (0:ℝ) then d1 else 0)))) :=
    le_trans (sq_nonneg c) hT
  have hs := (Real.le_sqrt hc hT0).mpr hT
  nlinarith [hs]

lemma radius_fold_ub (d1 d2 d3 d4 c r : ℝ) (hc : 0 < c) (h1 : d1 < c ^ 2)
    (h2 : d2 < c ^ 2) (h3 : d3 < c ^ 2) (h4 : d4 < c ^ 2) (hr : c * 1.5 ≤ r) :
    Real.sqrt
      (let t1 := if d1 > (0:ℝ) then d1 else 0
       let t2 := if d2 > t1 then d2 else t1
       let t3 := if d3 > t2 then d3 else t2
       if d4 > t3 then d4 else t3) * 1.5 < r := by
  simp only
  have hT :
      (if d4 > (if d3 > (if d2 > (if d1 > (0:ℝ) then d1 else 0) then d2 else
        (if d1 > (0:ℝ) then d1 else 0)) then d3 else (if d2 > (if d1 > (0:ℝ) then d1 else 0)
        then d2 else (if d1 > (0:ℝ) then d1 else 0))) then d4 else
        (if d3 > (if d2 > (if d1 > (0:ℝ) then d1 else 0) then d2 else
        (if d1 > (0:ℝ) then d1 else 0)) then d3 else (if d2 > (if d1 > (0:ℝ) then d1 else 0)
        then d2 else (if d1 > (0:ℝ) then d1 else 0)))) < c ^ 2 := by
    split_ifs <;> nlinarith
  have hs := (Real.sqrt_lt' hc).mpr hT
  nlinarith [hs]

lemma parent_center : (computeTileBoundingSphere ⟨0, 0, 0, 0⟩).center = ⟨wgs84a, 0, 0⟩ := by
  unfold computeTileBoundingSphere
  simp only [latRad10, latRad00, lonRad00, lonRad10, Real.sinh_neg, Real.arctan_neg,
    neg_add_cancel, zero_div, geodeticToECEF_zero]

lemma parent_radius_lb : (11621863:ℝ) ≤ (computeTileBoundingSphere ⟨0, 0, 0, 0⟩).radius := by
  unfold computeTileBoundingSphere
  simp only [latRad10, latRad00, lonRad00, lonRad10, Real.sinh_neg, Real.arctan_neg,
    neg_add_cancel, zero_div, geodeticToECEF_zero]
  simp only [geodeticToECEF, List.foldl, Real.sin_neg, Real.cos_neg, Real.sin_pi,
    Real.cos_pi, sinL_eq, cosL_eq, neg_zero, mul_zero, zero_mul, mul_one, one_mul,
    add_zero, zero_add, sub_zero, neg_mul, mul_neg, neg_neg, mul_neg_one, sub_self]
  apply radius_fold_lb _ _ _ _ 7747909 11621863 (by norm_num)
  · have hA := Real.cosh_pos Real.pi
    have hinv0 := invCoshPi_nonneg
    have ht1 := tanhPi_ge
    have ht2 := tanhPi_le_one
    have ht0 := tanhPi_nonneg
    have hNs := N_bounds (Real.sinh Real.pi / Real.cosh Real.pi) (by nlinarith)
    have haeq := wgs84a_eq
    have he2a := e2_pos
    have he2b := e2_lt
    have hNL1 : (6378137:ℝ) ≤ wgs84a / Real.sqrt (1 - wgs84e2 *
        (Real.sinh Real.pi / Real.cosh Real.pi) * (Real.sinh Real.pi / Real.cosh Real.pi)) := by
      linarith [hNs.1]
    have hNL0 : (0:ℝ) ≤ wgs84a / Real.sqrt (1 - wgs84e2 *
        (Real.sinh Real.pi / Real.cosh Real.pi) * (Real.sinh Real.pi / Real.cosh Real.pi)) := by
      linarith
    have hz1 : (6378137:ℝ) * (99 / 100) ≤ wgs84a / Real.sqrt (1 - wgs84e2 *
        (Real.sinh Real.pi / Real.cosh Real.pi) * (Real.sinh Real.pi / Real.cosh Real.pi)) *
        (1 - wgs84e2) := by nlinarith
    have hz2 : (6378137:ℝ) * (99 / 100) * (15 / 17) ≤ wgs84a / Real.sqrt (1 - wgs84e2 *
        (Real.sinh Real.pi / Real.cosh Real.pi) * (Real.sinh Real.pi / Real.cosh Real.pi)) *
        (1 - wgs84e2) * (Real.sinh Real.pi / Real.cosh Real.pi) := by
      nlinarith [mul_nonneg (by linarith : (0:ℝ) ≤ wgs84a / Real.sqrt (1 - wgs84e2 *
          (Real.sinh Real.pi / Real.cosh Real.pi) * (Real.sinh Real.pi / Real.cosh Real.pi)) *
          (1 - wgs84e2)) (by linarith : (0:ℝ) ≤ Real.sinh Real.pi / Real.cosh Real.pi - 15 / 17),
        mul_nonneg (by linarith : (0:ℝ) ≤ wgs84a / Real.sqrt (1 - wgs84e2 *
          (Real.sinh Real.pi / Real.cosh Real.pi) * (Real.sinh Real.pi / Real.cosh Real.pi)) *
          (1 - wgs84e2) - 6378137 * (99 / 100)) ht0]
    have hx0 : (0:ℝ) ≤ wgs84a / Real.sqrt (1 - wgs84e2 *
        (Real.sinh Real.pi / Real.cosh Real.pi) * (Real.sinh Real.pi / Real.cosh Real.pi)) *
        (1 / Real.cosh Real.pi) := mul_nonneg hNL0 hinv0
    nlinarith [hz2, hx0, haeq]
  · norm_num

lemma two_decimal : (2.0:ℝ) = 2 := by norm_num

lemma arctanSinhPi_nonneg : 0 ≤ Real.arctan (Real.sinh Real.pi) := by
  have h := Real.arctan_strictMono.monotone sinhPi_pos.le
  rwa [Real.arctan_zero] at h

lemma sphere_center (t : TileKey) : (computeTileBoundingSphere t).center =
    geodeticToECEF ⟨(tileToLat (t.y + 1) t.level * (Real.pi / 180.0) +
      tileToLat t.y t.level * (Real.pi / 180.0)) / 2.0,
      (tileToLon t.x t.level * (Real.pi / 180.0) +
      tileToLon (t.x + 1) t.level * (Real.pi / 180.0)) / 2.0, 0⟩ := rfl

lemma sinTheta_nonneg : 0 ≤ Real.sin (Real.arctan (Real.sinh Real.pi) / 2) := by
  apply Real.sin_nonneg_of_nonneg_of_le_pi
  · have := arctanSinhPi_nonneg
    linarith
  · have h1 := Real.arctan_lt_pi_div_two (Real.sinh Real.pi)
    have h2 := Real.pi_pos
    linarith

lemma NH_lb : wgs84a ≤ wgs84a / Real.sqrt (1 - wgs84e2 *
    Real.sin (Real.arctan (Real.sinh Real.pi) / 2) *
    Real.sin (Real.arctan (Real.sinh Real.pi) / 2)) :=
  (N_bounds _ (Real.sin_sq_le_one _)).1

lemma NH_ub : wgs84a / Real.sqrt (1 - wgs84e2 *
    Real.sin (Real.arctan (Real.sinh Real.pi) / 2) *
    Real.sin (Real.arctan (Real.sinh Real.pi) / 2)) ≤ 6443000 :=
  (N_bounds _ (Real.sin_sq_le_one _)).2

lemma NH_nonneg : 0 ≤ wgs84a / Real.sqrt (1 - wgs84e2 *
    Real.sin (Real.arctan (Real.sinh Real.pi) / 2) *
    Real.sin (Real.arctan (Real.sinh Real.pi) / 2)) := by
  have h := NH_lb
  have h2 := wgs84a_eq
  linarith

lemma NL_lb : wgs84a ≤ wgs84a / Real.sqrt (1 - wgs84e2 *
    (Real.sinh Real.pi / Real.cosh Real.pi) * (Real.sinh Real.pi / Real.cosh Real.pi)) :=
  (N_bounds _ (by nlinarith [tanhPi_le_one, tanhPi_nonneg])).1

lemma NL_ub : wgs84a / Real.sqrt (1 - wgs84e2 *
    (Real.sinh Real.pi / Real.cosh Real.pi) * (Real.sinh Real.pi / Real.cosh Real.pi)) ≤
    6443000 :=
  (N_bounds _ (by nlinarith [tanhPi_le_one, tanhPi_nonneg])).2

lemma NL_nonneg : 0 ≤ wgs84a / Real.sqrt (1 - wgs84e2 *
    (Real.sinh Real.pi / Real.cosh Real.pi) * (Real.sinh Real.pi / Real.cosh Real.pi)) := by
  have h := NL_lb
  have h2 := wgs84a_eq
  linarith

lemma bnd_a : wgs84a * wgs84a ≤ 41512249000000 := by
  rw [wgs84a_eq]
  norm_num

lemma bnd_NLinv : wgs84a / Real.sqrt (1 - wgs84e2 *
    (Real.sinh Real.pi / Real.cosh Real.pi) * (Real.sinh Real.pi / Real.cosh Real.pi)) *
    (1 / Real.cosh Real.pi) *
    (wgs84a / Real.sqrt (1 - wgs84e2 *
    (Real.sinh Real.pi / Real.cosh Real.pi) * (Real.sinh Real.pi / Real.cosh Real.pi)) *
    (1 / Real.cosh Real.pi)) ≤ 41512249000000 := by
  have h1 := NL_ub
  have h0 := NL_nonneg
  have hi2 := invCoshPi_le_half
  have hi0 := invCoshPi_nonneg
  have hni : wgs84a / Real.sqrt (1 - wgs84e2 *
      (Real.sinh Real.pi / Real.cosh Real.pi) * (Real.sinh Real.pi / Real.cosh Real.pi)) *
      (1 / Real.cosh Real.pi) ≤ 3221500 := by
    nlinarith [mul_nonneg (sub_nonneg.mpr h1) hi0]
  nlinarith [hni, mul_nonneg h0 hi0]

lemma bnd_cy : wgs84a / Real.sqrt (1 - wgs84e2 *
    Real.sin (Real.arctan (Real.sinh Real.pi) / 2) *
    Real.sin (Real.arctan (Real.sinh Real.pi) / 2)) *
    Real.cos (Real.arctan (Real.sinh Real.pi) / 2) *
    (wgs84a / Real.sqrt (1 - wgs84e2 *
    Real.sin (Real.arctan (Real.sinh Real.pi) / 2) *
    Real.sin (Real.arctan (Real.sinh Real.pi) / 2)) *
    Real.cos (Real.arctan (Real.sinh Real.pi) / 2)) ≤ 41512249000000 := by
  have h1 := NH_ub
  have h0 := NH_nonneg
  have hc := Real.cos_sq_le_one (Real.arctan (Real.sinh Real.pi) / 2)
  have hn1 := Real.neg_one_le_cos (Real.arctan (Real.sinh Real.pi) / 2)
  have hc1 := Real.cos_le_one (Real.arctan (Real.sinh Real.pi) / 2)
  nlinarith [mul_nonneg h0 h0, sq_nonneg (wgs84a / Real.sqrt (1 - wgs84e2 *
    Real.sin (Real.arctan (Real.sinh Real.pi) / 2) *
    Real.sin (Real.arctan (Real.sinh Real.pi) / 2)) *
    Real.cos (Real.arctan (Real.sinh Real.pi) / 2))]

lemma cz_nonneg : 0 ≤ wgs84a / Real.sqrt (1 - wgs84e2 *
    Real.sin (Real.arctan (Real.sinh Real.pi) / 2) *
    Real.sin (Real.arctan (Real.sinh Real.pi) / 2)) * (1 - wgs84e2) *
    Real.sin (Real.arctan (Real.sinh Real.pi) / 2) := by
  have he := e2_lt
  exact mul_nonneg (mul_nonneg NH_nonneg (by linarith)) sinTheta_nonneg

lemma cz_ub : wgs84a / Real.sqrt (1 - wgs84e2 *
    Real.sin (Real.arctan (Real.sinh Real.pi) / 2) *
    Real.sin (Real.arctan (Real.sinh Real.pi) / 2)) * (1 - wgs84e2) *
    Real.sin (Real.arctan (Real.sinh Real.pi) / 2) ≤ 6443000 := by
  have h1 := NH_ub
  have h0 := NH_nonneg
  have hs1 := Real.sin_le_one (Real.arctan (Real.sinh Real.pi) / 2)
  have hs0 := sinTheta_nonneg
  have hea := e2_pos
  have heb := e2_lt
  nlinarith [mul_nonneg h0 (by linarith : (0:ℝ) ≤ 1 - wgs84e2)]

lemma bnd_cz : wgs84a / Real.sqrt (1 - wgs84e2 *
    Real.sin (Real.arctan (Real.sinh Real.pi) / 2) *
    Real.sin (Real.arctan (Real.sinh Real.pi) / 2)) * (1 - wgs84e2) *
    Real.sin (Real.arctan (Real.sinh Real.pi) / 2) *
    (wgs84a / Real.sqrt (1 - wgs84e2 *
    Real.sin (Real.arctan (Real.sinh Real.pi) / 2) *
    Real.sin (Real.arctan (Real.sinh Real.pi) / 2)) * (1 - wgs84e2) *
    Real.sin (Real.arctan (Real.sinh Real.pi) / 2)) ≤ 41512249000000 := by
  have h0 := cz_nonneg
  have h1 := cz_ub
  nlinarith

lemma zl_nonneg : 0 ≤ wgs84a / Real.sqrt (1 - wgs84e2 *
    (Real.sinh Real.pi / Real.cosh Real.pi) * (Real.sinh Real.pi / Real.cosh Real.pi)) *
    (1 - wgs84e2) * (Real.sinh Real.pi / Real.cosh Real.pi) := by
  have he := e2_lt
  exact mul_nonneg (mul_nonneg NL_nonneg (by linarith)) tanhPi_nonneg

lemma zl_ub : wgs84a / Real.sqrt (1 - wgs84e2 *
    (Real.sinh Real.pi / Real.cosh Real.pi) * (Real.sinh Real.pi / Real.cosh Real.pi)) *
    (1 - wgs84e2) * (Real.sinh Real.pi / Real.cosh Real.pi) ≤ 6443000 := by
  have h1 := NL_ub
  have h0 := NL_nonneg
  have ht1 := tanhPi_le_one
  have ht0 := tanhPi_nonneg
  have hea := e2_pos
  have heb := e2_lt
  nlinarith [mul_nonneg h0 (by linarith : (0:ℝ) ≤ 1 - wgs84e2)]

lemma bnd_zlcz : (wgs84a / Real.sqrt (1 - wgs84e2 *
    (Real.sinh Real.pi / Real.cosh Real.pi) * (Real.sinh Real.pi / Real.cosh Real.pi)) *
    (1 - wgs84e2) * (Real.sinh Real.pi / Real.cosh Real.pi) -
    wgs84a / Real.sqrt (1 - wgs84e2 *
    Real.sin (Real.arctan (Real.sinh Real.pi) / 2) *
    Real.sin (Real.arctan (Real.sinh Real.pi) / 2)) * (1 - wgs84e2) *
    Real.sin (Real.arctan (Real.sinh Real.pi) / 2)) *
    (wgs84a / Real.sqrt (1 - wgs84e2 *
    (Real.sinh Real.pi / Real.cosh Real.pi) * (Real.sinh Real.pi / Real.cosh Real.pi)) *
    (1 - wgs84e2) * (Real.sinh Real.pi / Real.cosh Real.pi) -
    wgs84a / Real.sqrt (1 - wgs84e2 *
    Real.sin (Real.arctan (Real.sinh Real.pi) / 2) *
    Real.sin (Real.arctan (Real.sinh Real.pi) / 2)) * (1 - wgs84e2) *
    Real.sin (Real.arctan (Real.sinh Real.pi) / 2)) ≤ 41512249000000 := by
  have ha0 := zl_nonneg
  have ha1 := zl_ub
  have hb0 := cz_nonneg
  have hb1 := cz_ub
  nlinarith [mul_nonneg (sub_nonneg.mpr ha1) (sub_nonneg.mpr hb1), mul_nonneg ha0 hb0]

set_option maxHeartbeats 1000000 in
lemma childA_cx : (computeTileBoundingSphere ⟨0, 1, 0, 0⟩).center.x = 0 := by
  rw [sphere_center]
  simp only [latRad11, latRad01, lonRad01, lonRad11, zero_add, add_zero, two_decimal,
    neg_div, geodeticToECEF]
  simp only [Real.cos_neg, Real.sin_neg, Real.cos_pi_div_two, Real.sin_pi_div_two,
    mul_zero, mul_one, neg_zero, add_zero]

set_option maxHeartbeats 1000000 in
lemma childB_cx : (computeTileBoundingSphere ⟨0, 1, 1, 0⟩).center.x = 0 := by
  rw [sphere_center]
  simp only [latRad11, latRad01, lonRad11', lonRad21, zero_add, add_zero, two_decimal,
    neg_div, geodeticToECEF]
  simp only [Real.cos_neg, Real.sin_neg, Real.cos_pi_div_two, Real.sin_pi_div_two,
    mul_zero, mul_one, neg_zero, add_zero]

set_option maxHeartbeats 1000000 in
lemma childC_cx : (computeTileBoundingSphere ⟨0, 1, 0, 1⟩).center.x = 0 := by
  rw [sphere_center]
  simp only [latRad21, latRad11', lonRad01, lonRad11, zero_add, add_zero, two_decimal,
    neg_div, Real.sinh_neg, Real.arctan_neg, geodeticToECEF]
  simp only [Real.cos_neg, Real.sin_neg, Real.cos_pi_div_two, Real.sin_pi_div_two,
    mul_zero, mul_one, neg_zero, add_zero]

set_option maxHeartbeats 1000000 in
lemma childD_cx : (computeTileBoundingSphere ⟨0, 1, 1, 1⟩).center.x = 0 := by
  rw [sphere_center]
  simp only [latRad21, latRad11', lonRad11', lonRad21, zero_add, add_zero, two_decimal,
    neg_div, Real.sinh_neg, Real.arctan_neg, geodeticToECEF]
  simp only [Real.cos_neg, Real.sin_neg, Real.cos_pi_div_two, Real.sin_pi_div_two,
    mul_zero, mul_one, neg_zero, add_zero]

set_option maxHeartbeats 3200000 in
lemma childA_radius_ub : (computeTileBoundingSphere ⟨0, 1, 0, 0⟩).radius < 18000000 := by
  unfold computeTileBoundingSphere
  simp only [latRad11, latRad01, lonRad01, lonRad11, zero_add, add_zero, two_decimal,
    neg_div, geodeticToECEF_zero]
  simp only [geodeticToECEF, List.foldl, Real.sin_neg, Real.cos_neg, Real.sin_pi,
    Real.cos_pi, Real.sin_zero, Real.cos_zero, Real.sin_pi_div_two, Real.cos_pi_div_two,
    sinL_eq, cosL_eq, neg_zero, mul_zero, zero_mul, mul_one, one_mul, add_zero, zero_add,
    sub_zero, zero_sub, neg_mul, mul_neg, neg_neg, mul_neg_one, sub_self, Real.sqrt_one,
    div_one]
  refine radius_fold_ub _ _ _ _ 12000000 18000000 (by norm_num) ?_ ?_ ?_ ?_ (by norm_num)
  all_goals linarith [bnd_a, bnd_NLinv, bnd_cy, bnd_cz, bnd_zlcz]

set_option maxHeartbeats 3200000 in
lemma childB_radius_ub : (computeTileBoundingSphere ⟨0, 1, 1, 0⟩).radius < 18000000 := by
  unfold computeTileBoundingSphere
  simp only [latRad11, latRad01, lonRad11', lonRad21, zero_add, add_zero, two_decimal,
    neg_div, geodeticToECEF_zero]
  simp only [geodeticToECEF, List.foldl, Real.sin_neg, Real.cos_neg, Real.sin_pi,
    Real.cos_pi, Real.sin_zero, Real.cos_zero, Real.sin_pi_div_two, Real.cos_pi_div_two,
    sinL_eq, cosL_eq, neg_zero, mul_zero, zero_mul, mul_one, one_mul, add_zero, zero_add,
    sub_zero, zero_sub, neg_mul, mul_neg, neg_neg, mul_neg_one, sub_self, Real.sqrt_one,
    div_one]
  refine radius_fold_ub _ _ _ _ 12000000 18000000 (by norm_num) ?_ ?_ ?_ ?_ (by norm_num)
  all_goals linarith [bnd_a, bnd_NLinv, bnd_cy, bnd_cz, bnd_zlcz]

set_option maxHeartbeats 3200000 in
lemma childC_radius_ub : (computeTileBoundingSphere ⟨0, 1, 0, 1⟩).radius < 18000000 := by
  unfold computeTileBoundingSphere
  simp only [latRad21, latRad11', lonRad01, lonRad11, zero_add, add_zero, two_decimal,
    neg_div, Real.sinh_neg, Real.arctan_neg, geodeticToECEF_zero]
  simp only [geodeticToECEF, List.foldl, Real.sin_neg, Real.cos_neg, Real.sin_pi,
    Real.cos_pi, Real.sin_zero, Real.cos_zero, Real.sin_pi_div_two, Real.cos_pi_div_two,
    sinL_eq, cosL_eq, neg_zero, mul_zero, zero_mul, mul_one, one_mul, add_zero, zero_add,
    sub_zero, zero_sub, neg_mul, mul_neg, neg_neg, mul_neg_one, sub_self, Real.sqrt_one,
    div_one]
  refine radius_fold_ub _ _ _ _ 12000000 18000000 (by norm_num) ?_ ?_ ?_ ?_ (by norm_num)
  all_goals linarith [bnd_a, bnd_NLinv, bnd_cy, bnd_cz, bnd_zlcz]

set_option maxHeartbeats 3200000 in
lemma childD_radius_ub : (computeTileBoundingSphere ⟨0, 1, 1, 1⟩).radius < 18000000 := by
  unfold computeTileBoundingSphere
  simp only [latRad21, latRad11', lonRad11', lonRad21, zero_add, add_zero, two_decimal,
    neg_div, Real.sinh_neg, Real.arctan_neg, geodeticToECEF_zero]
  simp only [geodeticToECEF, List.foldl, Real.sin_neg, Real.cos_neg, Real.sin_pi,
    Real.cos_pi, Real.sin_zero, Real.cos_zero, Real.sin_pi_div_two, Real.cos_pi_div_two,
    sinL_eq, cosL_eq, neg_zero, mul_zero, zero_mul, mul_one, one_mul, add_zero, zero_add,
    sub_zero, zero_sub, neg_mul, mul_neg, neg_neg, mul_neg_one, sub_self, Real.sqrt_one,
    div_one]
  refine radius_fold_ub _ _ _ _ 12000000 18000000 (by norm_num) ?_ ?_ ?_ ?_ (by norm_num)
  all_goals linarith [bnd_a, bnd_NLinv, bnd_cy, bnd_cz, bnd_zlcz]


theorem processTile_parent_retain_witness :
    processTile ⟨6378137, 1, 1, 8⟩
      ⟨⟨0, 0, 0⟩, 0, ⟨fun _ => ⟨1, 0, 0, -18000000⟩⟩⟩ 2 ⟨0, 0, 0, 0⟩ [] =
      TileMap.set [] ⟨0, 0, 0, 0⟩ := by
  apply processTile_parent_retain ⟨6378137, 1, 1, 8⟩
    ⟨⟨0, 0, 0⟩, 0, ⟨fun _ => ⟨1, 0, 0, -18000000⟩⟩⟩ ⟨0, 0, 0, 0⟩ [] 1
  · unfold FrustumPlanes.intersectsSphere
    intro i
    simp only [parent_center, wgs84a_eq]
    intro hlt
    have hr := parent_radius_lb
    norm_num at hlt
    linarith
  · decide
  · exact Or.inr (by decide)
  · intro c hc
    simp [TileKey.getChildren] at hc
    have hA := childA_radius_ub
    have hB := childB_radius_ub
    have hC := childC_radius_ub
    have hD := childD_radius_ub
    rcases hc with rfl | rfl | rfl | rfl <;>
      · intro hint
        have h0 := hint 0
        apply h0
        simp only [childA_cx, childB_cx, childC_cx, childD_cx]
        norm_num
        linarith

lemma processTile_zero (cfg : QuadtreeConfig) (camera : CameraState) (t : TileKey)
    (m : TileMap) : processTile cfg camera 0 t m = m := rfl

lemma processTile_succ (cfg : QuadtreeConfig) (camera : CameraState) (fuel : ℕ)
    (t : TileKey) (m : TileMap) :
    processTile cfg camera (fuel + 1) t m =
      if ¬ tileVisible camera t then m
      else if shouldRefineP cfg camera t then
        (if (t.getChildren.foldl (childStep cfg camera fuel) (false, m)).1 then
          (t.getChildren.foldl (childStep cfg camera fuel) (false, m)).2
         else TileMap.set (t.getChildren.foldl (childStep cfg camera fuel) (false, m)).2 t)
      else TileMap.set m t := rfl

lemma mem_set {m : TileMap} {t u : TileKey} (h : u ∈ TileMap.set m t) : u ∈ m ∨ u = t := by
  unfold TileMap.set at h
  split_ifs at h
  · exact Or.inl h
  · rcases List.mem_append.mp h with h1 | h1
    · exact Or.inl h1
    · exact Or.inr (List.mem_singleton.mp h1)

lemma set_of_not_mem {m : TileMap} {t : TileKey} (h : t ∉ m) :
    TileMap.set m t = m ++ [t] := by
  unfold TileMap.set
  exact if_neg h

lemma length_set_pos (m : TileMap) (t : TileKey) : 1 ≤ (TileMap.set m t).length := by
  unfold TileMap.set
  split_ifs with h
  · exact List.length_pos.mpr (List.ne_nil_of_mem h)
  · simp

lemma length_set_ge (m : TileMap) (t : TileKey) : m.length ≤ (TileMap.set m t).length := by
  unfold TileMap.set
  split_ifs
  · exact le_refl _
  · simp

lemma inSubtree_refl (t : TileKey) : inSubtree t t := by
  unfold inSubtree
  simp

lemma inSubtree_level {t u : TileKey} (h : inSubtree t u) : t.level ≤ u.level := h.2.1

lemma inSubtree_face {t u : TileKey} (h : inSubtree t u) : t.face = u.face := h.1

lemma child_fields {t c : TileKey} (h : c ∈ t.getChildren) :
    c.face = t.face ∧ c.level = t.level + 1 ∧
    (c.x = t.x * 2 ∨ c.x = t.x * 2 + 1) ∧ (c.y = t.y * 2 ∨ c.y = t.y * 2 + 1) := by
  simp only [TileKey.getChildren, List.mem_cons, List.not_mem_nil, or_false] at h
  rcases h with rfl | rfl | rfl | rfl <;> simp

lemma children_level {t c : TileKey} (h : c ∈ t.getChildren) : c.level = t.level + 1 :=
  (child_fields h).2.1

lemma children_nodup (t : TileKey) : t.getChildren.Nodup := by
  simp only [TileKey.getChildren]
  refine List.nodup_cons.mpr ⟨?_, List.nodup_cons.mpr ⟨?_, List.nodup_cons.mpr
    ⟨?_, List.nodup_singleton _⟩⟩⟩ <;>
    simp [TileKey.mk.injEq]

lemma inSubtree_child_trans {t c u : TileKey} (hc : c ∈ t.getChildren)
    (h : inSubtree c u) : inSubtree t u := by
  obtain ⟨hf, hl, hx, hy⟩ := child_fields hc
  obtain ⟨huf, hul, hux1, hux2, huy1, huy2⟩ := h
  have hlev : t.level ≤ u.level := by omega
  have hk : u.level - t.level = (u.level - c.level) + 1 := by omega
  have hcx : t.x * 2 ≤ c.x ∧ c.x + 1 ≤ t.x * 2 + 2 := by rcases hx with hx | hx <;> omega
  have hcy : t.y * 2 ≤ c.y ∧ c.y + 1 ≤ t.y * 2 + 2 := by rcases hy with hy | hy <;> omega
  refine ⟨hf.symm.trans huf, hlev, ?_, ?_, ?_, ?_⟩ <;> rw [hk, pow_succ]
  · calc t.x * (2 ^ (u.level - c.level) * 2) = t.x * 2 * 2 ^ (u.level - c.level) := by ring
      _ ≤ c.x * 2 ^ (u.level - c.level) := Nat.mul_le_mul_right _ hcx.1
      _ ≤ u.x := hux1
  · calc u.x < (c.x + 1) * 2 ^ (u.level - c.level) := hux2
      _ ≤ (t.x * 2 + 2) * 2 ^ (u.level - c.level) := Nat.mul_le_mul_right _ hcx.2
      _ = (t.x + 1) * (2 ^ (u.level - c.level) * 2) := by ring
  · calc t.y * (2 ^ (u.level - c.level) * 2) = t.y * 2 * 2 ^ (u.level - c.level) := by ring
      _ ≤ c.y * 2 ^ (u.level - c.level) := Nat.mul_le_mul_right _ hcy.1
      _ ≤ u.y := huy1
  · calc u.y < (c.y + 1) * 2 ^ (u.level - c.level) := huy2
      _ ≤ (t.y * 2 + 2) * 2 ^ (u.level - c.level) := Nat.mul_le_mul_right _ hcy.2
      _ = (t.y + 1) * (2 ^ (u.level - c.level) * 2) := by ring

lemma interval_disj {a b P u : ℕ} (h1 : a * P ≤ u) (h2 : u < (a + 1) * P)
    (h3 : b * P ≤ u) (h4 : u < (b + 1) * P) : a = b := by
  rcases Nat.lt_trichotomy a b with h | h | h
  · exfalso
    have hab : a + 1 ≤ b := h
    nlinarith
  · exact h
  · exfalso
    have hab : b + 1 ≤ a := h
    nlinarith

lemma subtree_unique {c1 c2 u : TileKey} (hl : c1.level = c2.level)
    (h1 : inSubtree c1 u) (h2 : inSubtree c2 u) : c1 = c2 := by
  obtain ⟨hf1, hl1, hx1, hx2, hy1, hy2⟩ := h1
  obtain ⟨hf2, hl2, hx3, hx4, hy3, hy4⟩ := h2
  have hP : 0 < 2 ^ (u.level - c1.level) := pow_pos (by norm_num) _
  rw [← hl] at hx3 hx4 hy3 hy4
  have hx := interval_disj hx1 hx2 hx3 hx4
  have hy := interval_disj hy1 hy2 hy3 hy4
  rcases c1 with ⟨f1, l1, x1, y1⟩
  rcases c2 with ⟨f2, l2, x2, y2⟩
  simp only at hl hf1 hf2 hx hy
  rw [TileKey.mk.injEq]
  exact ⟨hf1.trans hf2.symm, hl, hx, hy⟩

lemma processTile_mem (cfg : QuadtreeConfig) (camera : CameraState) :
    ∀ (fuel : ℕ) (t : TileKey) (m : TileMap) (u : TileKey),
      u ∈ processTile cfg camera fuel t m → u ∈ m ∨ inSubtree t u := by
  intro fuel
  induction fuel with
  | zero =>
    intro t m u h
    rw [processTile_zero] at h
    exact Or.inl h
  | succ n ih =>
    have hfold : ∀ (l : List TileKey) (b : Bool) (m : TileMap) (u : TileKey),
        u ∈ (l.foldl (childStep cfg camera n) (b, m)).2 →
        u ∈ m ∨ ∃ c ∈ l, inSubtree c u := by
      intro l
      induction l with
      | nil =>
        intro b m u h
        exact Or.inl h
      | cons c l2 ihl =>
        intro b m u h
        rw [List.foldl_cons] at h
        unfold childStep at h
        by_cases hv : tileVisible camera c
        · rw [if_pos hv] at h
          rcases ihl true (processTile cfg camera n c m) u h with h1 | ⟨c2, hc2, hs⟩
          · rcases ih c m u h1 with h2 | h2
            · exact Or.inl h2
            · exact Or.inr ⟨c, List.mem_cons_self c l2, h2⟩
          · exact Or.inr ⟨c2, List.mem_cons_of_mem _ hc2, hs⟩
        · rw [if_neg hv] at h
          rcases ihl b m u h with h1 | ⟨c2, hc2, hs⟩
          · exact Or.inl h1
          · exact Or.inr ⟨c2, List.mem_cons_of_mem _ hc2, hs⟩
    intro t m u h
    rw [processTile_succ] at h
    by_cases hv : tileVisible camera t
    · rw [if_neg (not_not_intro hv)] at h
      by_cases hr : shouldRefineP cfg camera t
      · rw [if_pos hr] at h
        by_cases hflag : (t.getChildren.foldl (childStep cfg camera n) (false, m)).1 = true
        · rw [if_pos hflag] at h
          rcases hfold _ _ _ _ h with h1 | ⟨c, hc, hs⟩
          · exact Or.inl h1
          · exact Or.inr (inSubtree_child_trans hc hs)
        · rw [if_neg hflag] at h
          rcases mem_set h with h1 | rfl
          · rcases hfold _ _ _ _ h1 with h2 | ⟨c, hc, hs⟩
            · exact Or.inl h2
            · exact Or.inr (inSubtree_child_trans hc hs)
          · exact Or.inr (inSubtree_refl u)
      · rw [if_neg hr] at h
        rcases mem_set h with h1 | rfl
        · exact Or.inl h1
        · exact Or.inr (inSubtree_refl u)
    · rw [if_pos hv] at h
      exact Or.inl h

lemma foldl_mem (cfg : QuadtreeConfig) (camera : CameraState) (n : ℕ) :
    ∀ (l : List TileKey) (b : Bool) (m : TileMap) (u : TileKey),
      u ∈ (l.foldl (childStep cfg camera n) (b, m)).2 →
      u ∈ m ∨ ∃ c ∈ l, inSubtree c u := by
  intro l
  induction l with
  | nil =>
    intro b m u h
    exact Or.inl h
  | cons c l2 ihl =>
    intro b m u h
    rw [List.foldl_cons] at h
    unfold childStep at h
    by_cases hv : tileVisible camera c
    · rw [if_pos hv] at h
      rcases ihl true (processTile cfg camera n c m) u h with h1 | ⟨c2, hc2, hs⟩
      · rcases processTile_mem cfg camera n c m u h1 with h2 | h2
        · exact Or.inl h2
        · exact Or.inr ⟨c, List.mem_cons_self c l2, h2⟩
      · exact Or.inr ⟨c2, List.mem_cons_of_mem _ hc2, hs⟩
    · rw [if_neg hv] at h
      rcases ihl b m u h with h1 | ⟨c2, hc2, hs⟩
      · exact Or.inl h1
      · exact Or.inr ⟨c2, List.mem_cons_of_mem _ hc2, hs⟩

lemma processTile_length_ge (cfg : QuadtreeConfig) (camera : CameraState) :
    ∀ (fuel : ℕ) (t : TileKey) (m : TileMap),
      m.length ≤ (processTile cfg camera fuel t m).length := by
  intro fuel
  induction fuel with
  | zero =>
    intro t m
    rw [processTile_zero]
  | succ n ih =>
    have hfold : ∀ (l : List TileKey) (b : Bool) (m : TileMap),
        m.length ≤ (l.foldl (childStep cfg camera n) (b, m)).2.length := by
      intro l
      induction l with
      | nil =>
        intro b m
        exact le_refl _
      | cons c l2 ihl =>
        intro b m
        rw [List.foldl_cons]
        unfold childStep
        by_cases hv : tileVisible camera c
        · rw [if_pos hv]
          exact le_trans (ih c m) (ihl true (processTile cfg camera n c m))
        · rw [if_neg hv]
          exact ihl b m
    intro t m
    rw [processTile_succ]
    by_cases hv : tileVisible camera t
    · rw [if_neg (not_not_intro hv)]
      by_cases hr : shouldRefineP cfg camera t
      · rw [if_pos hr]
        by_cases hflag : (t.getChildren.foldl (childStep cfg camera n) (false, m)).1 = true
        · rw [if_pos hflag]
          exact hfold _ _ _
        · rw [if_neg hflag]
          exact le_trans (hfold _ _ _) (length_set_ge _ _)
      · rw [if_neg hr]
        exact length_set_ge _ _
    · rw [if_pos hv]

lemma foldl_length_ge (cfg : QuadtreeConfig) (camera : CameraState) (n : ℕ) :
    ∀ (l : List TileKey) (b : Bool) (m : TileMap),
      m.length ≤ (l.foldl (childStep cfg camera n) (b, m)).2.length := by
  intro l
  induction l with
  | nil =>
    intro b m
    exact le_refl _
  | cons c l2 ihl =>
    intro b m
    rw [List.foldl_cons]
    unfold childStep
    by_cases hv : tileVisible camera c
    · rw [if_pos hv]
      exact le_trans (processTile_length_ge cfg camera n c m)
        (ihl true (processTile cfg camera n c m))
    · rw [if_neg hv]
      exact ihl b m

lemma foldl_flag_indep (cfg cfg2 : QuadtreeConfig) (camera : CameraState) (n n2 : ℕ) :
    ∀ (l : List TileKey) (b : Bool) (m m2 : TileMap),
      (l.foldl (childStep cfg camera n) (b, m)).1 =
      (l.foldl (childStep cfg2 camera n2) (b, m2)).1 := by
  intro l
  induction l with
  | nil =>
    intro b m m2
    rfl
  | cons c l2 ihl =>
    intro b m m2
    rw [List.foldl_cons, List.foldl_cons]
    unfold childStep
    by_cases hv : tileVisible camera c
    · rw [if_pos hv, if_pos hv]
      exact ihl true _ _
    · rw [if_neg hv, if_neg hv]
      exact ihl b _ _

lemma foldl_flag_false (cfg : QuadtreeConfig) (camera : CameraState) (n : ℕ) :
    ∀ (l : List TileKey) (b : Bool) (m : TileMap),
      ¬ ((l.foldl (childStep cfg camera n) (b, m)).1 = true) →
      (l.foldl (childStep cfg camera n) (b, m)).2 = m := by
  intro l
  induction l with
  | nil =>
    intro b m _
    rfl
  | cons c l2 ihl =>
    intro b m hflag
    rw [List.foldl_cons] at hflag ⊢
    unfold childStep at hflag ⊢
    by_cases hv : tileVisible camera c
    · exfalso
      rw [if_pos hv] at hflag
      apply hflag
      have : ∀ (l3 : List TileKey) (m3 : TileMap),
          (l3.foldl (childStep cfg camera n) (true, m3)).1 = true := by
        intro l3
        induction l3 with
        | nil => intro m3; rfl
        | cons c3 l4 ihl3 =>
          intro m3
          rw [List.foldl_cons]
          unfold childStep
          by_cases hv3 : tileVisible camera c3
          · rw [if_pos hv3]
            exact ihl3 _
          · rw [if_neg hv3]
            exact ihl3 _
      exact this _ _
    · rw [if_neg hv] at hflag ⊢
      exact ihl b m hflag

lemma processTile_decomp (cfg : QuadtreeConfig) (camera : CameraState) :
    ∀ (fuel : ℕ) (t : TileKey) (m : TileMap),
      (∀ u ∈ m, ¬ inSubtree t u) →
      processTile cfg camera fuel t m = m ++ processTile cfg camera fuel t [] := by
  intro fuel
  induction fuel with
  | zero =>
    intro t m _
    rw [processTile_zero, processTile_zero, List.append_nil]
  | succ n ih =>
    have hfoldd : ∀ (l : List TileKey), l.Nodup → ∀ (L : ℕ), (∀ c ∈ l, c.level = L) →
        ∀ (b : Bool) (m : TileMap), (∀ u ∈ m, ∀ c ∈ l, ¬ inSubtree c u) →
        (l.foldl (childStep cfg camera n) (b, m)).2 =
          m ++ (l.foldl (childStep cfg camera n) (b, [])).2 := by
      intro l
      induction l with
      | nil =>
        intro _ L _ b m _
        simp
      | cons c l2 ihl =>
        intro hnd L hlev b m hfresh
        rw [List.foldl_cons, List.foldl_cons]
        unfold childStep
        by_cases hv : tileVisible camera c
        · rw [if_pos hv, if_pos hv]
          simp only
          have hfr_c : ∀ u ∈ m, ¬ inSubtree c u := fun u hu =>
            hfresh u hu c (List.mem_cons_self c l2)
          have hdc : processTile cfg camera n c m = m ++ processTile cfg camera n c [] :=
            ih c m hfr_c
          have hE : ∀ u ∈ processTile cfg camera n c [], inSubtree c u := by
            intro u hu
            rcases processTile_mem cfg camera n c [] u hu with h1 | h1
            · cases h1
            · exact h1
          have hfreshE : ∀ u ∈ processTile cfg camera n c [], ∀ c2 ∈ l2, ¬ inSubtree c2 u := by
            intro u hu c2 hc2 hcon
            have hc2l : c2.level = L := hlev c2 (List.mem_cons_of_mem _ hc2)
            have hcl : c.level = L := hlev c (List.mem_cons_self c l2)
            have heq : c2 = c := subtree_unique (by rw [hc2l, hcl]) hcon (hE u hu)
            rw [heq] at hc2
            exact (List.nodup_cons.mp hnd).1 hc2
          have hfresh2 : ∀ u ∈ m ++ processTile cfg camera n c [], ∀ c2 ∈ l2,
              ¬ inSubtree c2 u := by
            intro u hu c2 hc2 hcon
            rcases List.mem_append.mp hu with h1 | h1
            · exact hfresh u h1 c2 (List.mem_cons_of_mem _ hc2) hcon
            · exact hfreshE u h1 c2 hc2 hcon
          have hnd2 := (List.nodup_cons.mp hnd).2
          have hlev2 : ∀ c2 ∈ l2, c2.level = L := fun c2 hc2 =>
            hlev c2 (List.mem_cons_of_mem _ hc2)
          rw [hdc]
          rw [ihl hnd2 L hlev2 true (m ++ processTile cfg camera n c []) hfresh2]
          rw [ihl hnd2 L hlev2 true (processTile cfg camera n c []) hfreshE]
          rw [List.append_assoc]
        · rw [if_neg hv, if_neg hv]
          have hnd2 := (List.nodup_cons.mp hnd).2
          have hlev2 : ∀ c2 ∈ l2, c2.level = L := fun c2 hc2 =>
            hlev c2 (List.mem_cons_of_mem _ hc2)
          have hfresh2 : ∀ u ∈ m, ∀ c2 ∈ l2, ¬ inSubtree c2 u := fun u hu c2 hc2 =>
            hfresh u hu c2 (List.mem_cons_of_mem _ hc2)
          exact ihl hnd2 L hlev2 b m hfresh2
    intro t m hfresh
    rw [processTile_succ, processTile_succ]
    by_cases hv : tileVisible camera t
    · rw [if_neg (not_not_intro hv), if_neg (not_not_intro hv)]
      by_cases hr : shouldRefineP cfg camera t
      · rw [if_pos hr, if_pos hr]
        have hfr : ∀ u ∈ m, ∀ c ∈ t.getChildren, ¬ inSubtree c u := by
          intro u hu c hc hcon
          exact hfresh u hu (inSubtree_child_trans hc hcon)
        have hd := hfoldd t.getChildren (children_nodup t) (t.level + 1)
          (fun c hc => children_level hc) false m hfr
        have hf := foldl_flag_indep cfg cfg camera n n t.getChildren false m []
        by_cases hflag : (t.getChildren.foldl (childStep cfg camera n) (false, m)).1 = true
        · rw [if_pos hflag, if_pos (hf ▸ hflag)]
          exact hd
        · rw [if_neg hflag, if_neg (fun hc => hflag (hf ▸ hc))]
          rw [hd]
          have ht1 : t ∉ (t.getChildren.foldl (childStep cfg camera n) (false, [])).2 := by
            intro hmem
            rcases foldl_mem cfg camera n t.getChildren false [] t hmem with h1 | ⟨c, hc, hs⟩
            · cases h1
            · have h2 := inSubtree_level hs
              have h3 := children_level hc
              omega
          have ht2 : t ∉ m := fun hm => hfresh t hm (inSubtree_refl t)
          have ht3 : t ∉ m ++ (t.getChildren.foldl (childStep cfg camera n) (false, [])).2 := by
            rw [List.mem_append]
            rintro (h1 | h1)
            · exact ht2 h1
            · exact ht1 h1
          rw [set_of_not_mem ht3, set_of_not_mem ht1, List.append_assoc]
      · rw [if_neg hr, if_neg hr]
        have ht2 : t ∉ m := fun hm => hfresh t hm (inSubtree_refl t)
        rw [set_of_not_mem ht2, set_of_not_mem (List.not_mem_nil t), List.nil_append]
    · rw [if_pos hv, if_pos hv, List.append_nil]

lemma foldl_decomp (cfg : QuadtreeConfig) (camera : CameraState) (n : ℕ)
    (l : List TileKey) (hnd : l.Nodup) (L : ℕ) (hlev : ∀ c ∈ l, c.level = L)
    (b : Bool) (m : TileMap) (hfresh : ∀ u ∈ m, ∀ c ∈ l, ¬ inSubtree c u) :
    (l.foldl (childStep cfg camera n) (b, m)).2 =
      m ++ (l.foldl (childStep cfg camera n) (b, [])).2 := by
  induction l generalizing b m with
  | nil =>
    simp
  | cons c l2 ihl =>
    rw [List.foldl_cons, List.foldl_cons]
    unfold childStep
    have hnd2 := (List.nodup_cons.mp hnd).2
    have hlev2 : ∀ c2 ∈ l2, c2.level = L := fun c2 hc2 => hlev c2 (List.mem_cons_of_mem _ hc2)
    by_cases hv : tileVisible camera c
    · rw [if_pos hv, if_pos hv]
      simp only
      have hfr_c : ∀ u ∈ m, ¬ inSubtree c u := fun u hu =>
        hfresh u hu c (List.mem_cons_self c l2)
      have hdc := processTile_decomp cfg camera n c m hfr_c
      have hE : ∀ u ∈ processTile cfg camera n c [], inSubtree c u := by
        intro u hu
        rcases processTile_mem cfg camera n c [] u hu with h1 | h1
        · cases h1
        · exact h1
      have hfreshE : ∀ u ∈ processTile cfg camera n c [], ∀ c2 ∈ l2, ¬ inSubtree c2 u := by
        intro u hu c2 hc2 hcon
        have heq : c2 = c := subtree_unique
          (by rw [hlev2 c2 hc2, hlev c (List.mem_cons_self c l2)]) hcon (hE u hu)
        rw [heq] at hc2
        exact (List.nodup_cons.mp hnd).1 hc2
      have hfresh2 : ∀ u ∈ m ++ processTile cfg camera n c [], ∀ c2 ∈ l2,
          ¬ inSubtree c2 u := by
        intro u hu c2 hc2 hcon
        rcases List.mem_append.mp hu with h1 | h1
        · exact hfresh u h1 c2 (List.mem_cons_of_mem _ hc2) hcon
        · exact hfreshE u h1 c2 hc2 hcon
      rw [hdc]
      rw [ihl hnd2 hlev2 true (m ++ processTile cfg camera n c []) hfresh2]
      rw [ihl hnd2 hlev2 true (processTile cfg camera n c []) hfreshE]
      rw [List.append_assoc]
    · rw [if_neg hv, if_neg hv]
      have hfresh2 : ∀ u ∈ m, ∀ c2 ∈ l2, ¬ inSubtree c2 u := fun u hu c2 hc2 =>
        hfresh u hu c2 (List.mem_cons_of_mem _ hc2)
      exact ihl hnd2 hlev2 b m hfresh2

lemma processTile_nonempty (cfg : QuadtreeConfig) (camera : CameraState) :
    ∀ (fuel : ℕ) (t : TileKey), tileVisible camera t → 1 ≤ fuel →
      cfg.maxLevel + 1 - t.level ≤ fuel →
      1 ≤ (processTile cfg camera fuel t []).length := by
  intro fuel
  induction fuel with
  | zero =>
    intro t _ h1 _
    omega
  | succ n ih =>
    intro t hv _ hfb
    rw [processTile_succ, if_neg (not_not_intro hv)]
    by_cases hr : shouldRefineP cfg camera t
    · rw [if_pos hr]
      have hlt : t.level < cfg.maxLevel := hr.1
      have hn1 : 1 ≤ n := by omega
      have hnb : cfg.maxLevel + 1 - (t.level + 1) ≤ n := by omega
      by_cases hflag : (t.getChildren.foldl (childStep cfg camera n) (false, [])).1 = true
      · rw [if_pos hflag]
        have hgrow : ∀ (l : List TileKey), (∀ c ∈ l, c.level = t.level + 1) →
            ∀ (b : Bool) (m : TileMap),
            (l.foldl (childStep cfg camera n) (b, m)).1 = true →
            b = true ∨ 1 ≤ (l.foldl (childStep cfg camera n) (b, m)).2.length := by
          intro l
          induction l with
          | nil =>
            intro _ b m hb
            exact Or.inl hb
          | cons c l2 ihl =>
            intro hlev b m hb
            rw [List.foldl_cons] at hb ⊢
            unfold childStep at hb ⊢
            by_cases hvc : tileVisible camera c
            · rw [if_pos hvc] at hb ⊢
              right
              have hcl : c.level = t.level + 1 := hlev c (List.mem_cons_self c l2)
              have hbase : 1 ≤ (processTile cfg camera n c (b, m).2).length := by
                rcases m with _ | ⟨x, m2⟩
                · exact ih c hvc hn1 (by rw [hcl]; exact hnb)
                · show 1 ≤ (processTile cfg camera n c (x :: m2)).length
                  have h2 := processTile_length_ge cfg camera n c (x :: m2)
                  simp only [List.length_cons] at h2
                  omega
              exact le_trans hbase (foldl_length_ge cfg camera n l2 true _)
            · rw [if_neg hvc] at hb ⊢
              rcases ihl (fun c2 hc2 => hlev c2 (List.mem_cons_of_mem _ hc2)) b m hb with
                h1 | h1
              · exact Or.inl h1
              · exact Or.inr h1
        rcases hgrow t.getChildren (fun c hc => children_level hc) false [] hflag with
          h1 | h1
        · cases h1
        · exact h1
      · rw [if_neg hflag]
        exact length_set_pos _ _
    · rw [if_neg hr]
      exact length_set_pos _ _

lemma processTile_mono (camera : CameraState) (pR : ℝ) (maxL minL : ℕ) (s1 s2 : ℝ)
    (h12 : s1 ≤ s2) :
    ∀ (fuel : ℕ) (t : TileKey), maxL + 1 - t.level ≤ fuel →
      (processTile ⟨pR, maxL, minL, s2⟩ camera fuel t []).length ≤
      (processTile ⟨pR, maxL, minL, s1⟩ camera fuel t []).length := by
  intro fuel
  induction fuel with
  | zero =>
    intro t _
    exact le_refl _
  | succ n ih =>
    intro t hfb
    by_cases hv : tileVisible camera t
    · by_cases hr2 : shouldRefineP ⟨pR, maxL, minL, s2⟩ camera t
      · have hr1 : shouldRefineP ⟨pR, maxL, minL, s1⟩ camera t := by
          obtain ⟨ha, hb⟩ := hr2
          refine ⟨ha, ?_⟩
          rcases hb with hb | hb
          · exact Or.inl (lt_of_le_of_lt h12 hb)
          · exact Or.inr hb
        rw [processTile_succ, processTile_succ, if_neg (not_not_intro hv),
          if_neg (not_not_intro hv), if_pos hr2, if_pos hr1]
        have hlt : t.level < maxL := hr2.1
        have hnb : maxL + 1 - (t.level + 1) ≤ n := by omega
        have hfl := foldl_flag_indep ⟨pR, maxL, minL, s2⟩ ⟨pR, maxL, minL, s1⟩ camera n n
          t.getChildren false [] []
        by_cases hflag : (t.getChildren.foldl (childStep ⟨pR, maxL, minL, s2⟩ camera n)
            (false, [])).1 = true
        · rw [if_pos hflag, if_pos (hfl ▸ hflag)]
          have hmono : ∀ (l : List TileKey), l.Nodup → (∀ c ∈ l, c.level = t.level + 1) →
              ∀ (b : Bool),
              (l.foldl (childStep ⟨pR, maxL, minL, s2⟩ camera n) (b, [])).2.length ≤
              (l.foldl (childStep ⟨pR, maxL, minL, s1⟩ camera n) (b, [])).2.length := by
            intro l
            induction l with
            | nil =>
              intro _ _ b
              exact le_refl _
            | cons c l2 ihl =>
              intro hnd hlev b
              rw [List.foldl_cons, List.foldl_cons]
              unfold childStep
              have hnd2 := (List.nodup_cons.mp hnd).2
              have hlev2 : ∀ c2 ∈ l2, c2.level = t.level + 1 := fun c2 hc2 =>
                hlev c2 (List.mem_cons_of_mem _ hc2)
              have hcl : c.level = t.level + 1 := hlev c (List.mem_cons_self c l2)
              by_cases hvc : tileVisible camera c
              · rw [if_pos hvc, if_pos hvc]
                simp only
                have hE2 : ∀ u ∈ processTile ⟨pR, maxL, minL, s2⟩ camera n c [],
                    inSubtree c u := by
                  intro u hu
                  rcases processTile_mem _ camera n c [] u hu with h1 | h1
                  · cases h1
                  · exact h1
                have hE1 : ∀ u ∈ processTile ⟨pR, maxL, minL, s1⟩ camera n c [],
                    inSubtree c u := by
                  intro u hu
                  rcases processTile_mem _ camera n c [] u hu with h1 | h1
                  · cases h1
                  · exact h1
                have hfresh2 : ∀ u ∈ processTile ⟨pR, maxL, minL, s2⟩ camera n c [],
                    ∀ c2 ∈ l2, ¬ inSubtree c2 u := by
                  intro u hu c2 hc2 hcon
                  have heq : c2 = c := subtree_unique
                    (by rw [hlev2 c2 hc2, hcl]) hcon (hE2 u hu)
                  rw [heq] at hc2
                  exact (List.nodup_cons.mp hnd).1 hc2
                have hfresh1 : ∀ u ∈ processTile ⟨pR, maxL, minL, s1⟩ camera n c [],
                    ∀ c2 ∈ l2, ¬ inSubtree c2 u := by
                  intro u hu c2 hc2 hcon
                  have heq : c2 = c := subtree_unique
                    (by rw [hlev2 c2 hc2, hcl]) hcon (hE1 u hu)
                  rw [heq] at hc2
                  exact (List.nodup_cons.mp hnd).1 hc2
                rw [foldl_decomp _ camera n l2 hnd2 (t.level + 1) hlev2 true _ hfresh2]
                rw [foldl_decomp _ camera n l2 hnd2 (t.level + 1) hlev2 true _ hfresh1]
                rw [List.length_append, List.length_append]
                have hc_mono := ih c (by rw [hcl]; exact hnb)
                have hrest := ihl hnd2 hlev2 true
                omega
              · rw [if_neg hvc, if_neg hvc]
                exact ihl hnd2 hlev2 b
          exact hmono t.getChildren (children_nodup t) (fun c hc => children_level hc) false
        · rw [if_neg hflag, if_neg (fun hc => hflag (hfl ▸ hc))]
          rw [foldl_flag_false _ camera n t.getChildren false [] hflag]
          rw [foldl_flag_false _ camera n t.getChildren false [] (fun hc => hflag (hfl ▸ hc))]
      · conv_lhs => rw [processTile_succ]
        rw [if_neg (not_not_intro hv), if_neg hr2]
        have h1 := processTile_nonempty ⟨pR, maxL, minL, s1⟩ camera (n + 1) t hv
          (by omega) hfb
        calc (TileMap.set [] t).length = 1 := by
              rw [set_of_not_mem (List.not_mem_nil t)]
              rfl
          _ ≤ _ := h1
    · rw [processTile_succ, processTile_succ, if_pos hv, if_pos hv]

lemma rootsFold_decomp (cfg : QuadtreeConfig) (camera : CameraState) (fuel : ℕ) :
    ∀ (l : List TileKey), l.Nodup → (∀ r ∈ l, r.level = 0) →
      ∀ (m : TileMap), (∀ u ∈ m, ∀ r ∈ l, ¬ inSubtree r u) →
      l.foldl (fun acc root => processTile cfg camera fuel root acc) m =
        m ++ l.foldl (fun acc root => processTile cfg camera fuel root acc) [] := by
  intro l
  induction l with
  | nil =>
    intro _ _ m _
    simp
  | cons r l2 ih =>
    intro hnd hlev m hfresh
    rw [List.foldl_cons, List.foldl_cons]
    have hnd2 := (List.nodup_cons.mp hnd).2
    have hlev2 : ∀ r2 ∈ l2, r2.level = 0 := fun r2 h => hlev r2 (List.mem_cons_of_mem _ h)
    have hfr : ∀ u ∈ m, ¬ inSubtree r u := fun u hu =>
      hfresh u hu r (List.mem_cons_self r l2)
    have hEmem : ∀ u ∈ processTile cfg camera fuel r [], inSubtree r u := by
      intro u hu
      rcases processTile_mem cfg camera fuel r [] u hu with h1 | h1
      · cases h1
      · exact h1
    have hEfresh : ∀ u ∈ processTile cfg camera fuel r [], ∀ r2 ∈ l2, ¬ inSubtree r2 u := by
      intro u hu r2 hr2 hcon
      have heq : r2 = r := subtree_unique
        (by rw [hlev2 r2 hr2, hlev r (List.mem_cons_self r l2)]) hcon (hEmem u hu)
      rw [heq] at hr2
      exact (List.nodup_cons.mp hnd).1 hr2
    rw [processTile_decomp cfg camera fuel r m hfr]
    rw [ih hnd2 hlev2 (m ++ processTile cfg camera fuel r []) ?hfm]
    case hfm =>
      intro u hu r2 hr2
      rcases List.mem_append.mp hu with h1 | h1
      · exact hfresh u h1 r2 (List.mem_cons_of_mem _ hr2)
      · exact hEfresh u h1 r2 hr2
    rw [ih hnd2 hlev2 (processTile cfg camera fuel r []) hEfresh]
    rw [List.append_assoc]

lemma rootsFold_mono (camera : CameraState) (pR : ℝ) (maxL minL : ℕ) (s1 s2 : ℝ)
    (h12 : s1 ≤ s2) :
    ∀ (l : List TileKey), l.Nodup → (∀ r ∈ l, r.level = 0) →
      (l.foldl (fun acc root => processTile ⟨pR, maxL, minL, s2⟩ camera (maxL + 1) root acc)
        []).length ≤
      (l.foldl (fun acc root => processTile ⟨pR, maxL, minL, s1⟩ camera (maxL + 1) root acc)
        []).length := by
  intro l
  induction l with
  | nil =>
    intro _ _
    exact le_refl _
  | cons r l2 ih =>
    intro hnd hlev
    have hnd2 := (List.nodup_cons.mp hnd).2
    have hlev2 : ∀ r2 ∈ l2, r2.level = 0 := fun r2 h => hlev r2 (List.mem_cons_of_mem _ h)
    have hEfresh : ∀ (cfg : QuadtreeConfig),
        ∀ u ∈ processTile cfg camera (maxL + 1) r [], ∀ r2 ∈ l2, ¬ inSubtree r2 u := by
      intro cfg u hu r2 hr2 hcon
      have hru : inSubtree r u := by
        rcases processTile_mem cfg camera (maxL + 1) r [] u hu with h1 | h1
        · cases h1
        · exact h1
      have heq : r2 = r := subtree_unique
        (by rw [hlev2 r2 hr2, hlev r (List.mem_cons_self r l2)]) hcon hru
      rw [heq] at hr2
      exact (List.nodup_cons.mp hnd).1 hr2
    rw [List.foldl_cons, List.foldl_cons]
    rw [rootsFold_decomp ⟨pR, maxL, minL, s2⟩ camera (maxL + 1) l2 hnd2 hlev2 _
      (hEfresh ⟨pR, maxL, minL, s2⟩)]
    rw [rootsFold_decomp ⟨pR, maxL, minL, s1⟩ camera (maxL + 1) l2 hnd2 hlev2 _
      (hEfresh ⟨pR, maxL, minL, s1⟩)]
    rw [List.length_append, List.length_append]
    have hroot := processTile_mono camera pR maxL minL s1 s2 h12 (maxL + 1) r
      (by rw [hlev r (List.mem_cons_self r l2)]; omega)
    have hrest := ih hnd2 hlev2
    omega

/-- C6: monotonic refinement.  For a fixed camera and fixed planetRadius,
maxLevel and minLevel, raising the SSE threshold never increases the number
of active tiles returned by `update`: the traversal with the larger
threshold refines at most as often, and every visible subtree still emits at
least one tile under the smaller threshold. -/
theorem update_active_monotone (camera : CameraState) (pR : ℝ) (maxL minL : ℕ)
    (t1 t2 : ℝ) (h12 : t1 ≤ t2) (m0 : TileMap) :
    (update ⟨pR, maxL, minL, t2⟩ camera m0).1.active.length ≤
    (update ⟨pR, maxL, minL, t1⟩ camera m0).1.active.length := by
  unfold update
  exact rootsFold_mono camera pR maxL minL t1 t2 h12 TileKey.rootFaces
    (by decide) (by decide)

theorem update_active_monotone_witness :
    (1 : ℝ) ≤ 2 ∧
    ((update ⟨6378137, 1, 0, 2⟩ ⟨⟨0, 0, 0⟩, 0, ⟨fun _ => ⟨0, 0, 0, 0⟩⟩⟩ []).1.active.length ≤
     (update ⟨6378137, 1, 0, 1⟩ ⟨⟨0, 0, 0⟩, 0, ⟨fun _ => ⟨0, 0, 0, 0⟩⟩⟩ []).1.active.length) :=
  ⟨by norm_num,
   update_active_monotone ⟨⟨0, 0, 0⟩, 0, ⟨fun _ => ⟨0, 0, 0, 0⟩⟩⟩ 6378137 1 0 1 2
     (by norm_num) []⟩

/-- C7: ENU round-trip.  `ecefToENU (enuToECEF local anchor) anchor` recovers
`local` exactly for every local vector and every anchor: over the reals the
two local-tangent-plane rotations are exact inverses. -/
theorem ecefToENU_enuToECEF_roundtrip (lcl : Vec3) (anchor : Geodetic) :
    ecefToENU (enuToECEF lcl anchor) anchor = lcl := by
  have hlat := Real.sin_sq_add_cos_sq anchor.lat
  have hlon := Real.sin_sq_add_cos_sq anchor.lon
  rw [Vec3.ext_iff']
  simp only [ecefToENU, enuToECEF]
  refine ⟨?_, ?_, ?_⟩
  · linear_combination lcl.x * hlon
  · linear_combination (Real.sin anchor.lat ^ 2 * lcl.y -
      Real.sin anchor.lat * Real.cos anchor.lat * lcl.z) * hlon + lcl.y * hlat
  · linear_combination (Real.cos anchor.lat ^ 2 * lcl.z -
      Real.sin anchor.lat * Real.cos anchor.lat * lcl.y) * hlon + lcl.z * hlat
